import Mathlib

/-!
Shallow embedding of the query-understanding core of the SearchSystem
repository (`src/app/brands.py` and `src/app/utils.py`), together with
theorems settling the specification claims about it.

Python strings are modelled as Lean `String`/`List Char`; Python dicts as
association lists with first-writer (`setdefault`) insertion where the code
uses it; Python floats as exact rationals (all scores involved are ratios of
small integers, far from any binary-rounding boundary).
-/

namespace SearchSystem

/-! ## Character helpers -/

/-- ASCII digit `0-9` (code points 48-57). -/
def isAsciiDigit (c : Char) : Bool := 48 ≤ c.toNat && c.toNat ≤ 57

/-- ASCII lowercase letter `a-z` (code points 97-122). -/
def isAsciiLower (c : Char) : Bool := 97 ≤ c.toNat && c.toNat ≤ 122

/-- ASCII uppercase letter `A-Z` (code points 65-90). -/
def isAsciiUpper (c : Char) : Bool := 65 ≤ c.toNat && c.toNat ≤ 90

/-- Character allowed in a fully normalized token: `[0-9a-z]`. -/
def isAlnumLower (c : Char) : Bool := isAsciiDigit c || isAsciiLower c

/-- Whitespace characters stripped by Python `str.strip()` / matched by `\s`
(the ASCII portion, which is the relevant one here): space and `\t\n\v\f\r`
(code points 9-13). -/
def isPyWs (c : Char) : Bool :=
  c.toNat = 32 || (9 ≤ c.toNat && c.toNat ≤ 13)

/-- Lowercasing as used on the inputs at hand: ASCII `A-Z` and Cyrillic
`А-Я` (code points 1040-1071) and `Ё` (1025); every other character is left
unchanged. -/
def toLowerPy (c : Char) : Char :=
  if 65 ≤ c.toNat && c.toNat ≤ 90 then Char.ofNat (c.toNat + 32)
  else if 1040 ≤ c.toNat && c.toNat ≤ 1071 then Char.ofNat (c.toNat + 32)
  else if c.toNat = 1025 then 'ё'
  else c

/-- Strip characters satisfying `p` from both ends of a character list
(Python `str.strip(chars)`). -/
def pyStrip (p : Char → Bool) (l : List Char) : List Char :=
  ((l.dropWhile p).reverse.dropWhile p).reverse

/-- Lookup in a Python dict literal modelled as an association list
(`dict.get(key)`); the tables in this file have pairwise distinct keys. -/
def pyGet (m : List (String × String)) (k : String) : Option String :=
  (m.find? (fun p => p.1 == k)).map (fun p => p.2)

/-! ## Tables from `src/app/brands.py` -/

/-- `PRE_TRANSLIT_OVERRIDES` from `src/app/brands.py`. -/
def PRE_TRANSLIT_OVERRIDES : List (String × String) :=
  [("тойота", "toyota"), ("тайота", "toyota"), ("тоёта", "toyota"),
   ("таёта", "toyota"), ("тойёта", "toyota"), ("тойета", "toyota"),
   ("тойтоа", "toyota"), ("таиота", "toyota"), ("таета", "toyota"),
   ("лексус", "lexus"), ("лэксус", "lexus"), ("лехсус", "lexus"),
   ("лехус", "lexus"), ("лекс", "lexus"),
   ("лукойл", "lukoil"), ("лукоил", "lukoil"), ("лукоел", "lukoil")]

/-- `POST_TRANSLIT_OVERRIDES` from `src/app/brands.py`. -/
def POST_TRANSLIT_OVERRIDES : List (String × String) :=
  [("toiota", "toyota"), ("toeta", "toyota"), ("tayota", "toyota"),
   ("toyeta", "toyota"), ("toyata", "toyota"), ("toitoa", "toyota"),
   ("taiota", "toyota"),
   ("lexsus", "lexus"), ("leksus", "lexus"), ("lecsus", "lexus"),
   ("leksis", "lexus"),
   ("lukoil", "lukoil"), ("lukoyl", "lukoil")]

/-- `RU_EQUIV_TRANSLATION` (`str.maketrans({"ё": "е", "й": "и"})`). -/
def ruEquiv (c : Char) : Char :=
  if c = 'ё' then 'е' else if c = 'й' then 'и' else c

/-- `RU_TO_LATIN` from `src/app/brands.py`: Cyrillic letter to its Latin
rendering (as a character list; some letters render as several Latin
letters, the hard/soft signs as none). -/
def RU_TO_LATIN : List (Char × List Char) :=
  [('а', ['a']), ('б', ['b']), ('в', ['v']), ('г', ['g']), ('д', ['d']),
   ('е', ['e']), ('ё', ['e']), ('ж', ['z', 'h']), ('з', ['z']), ('и', ['i']),
   ('й', ['i']), ('к', ['k']), ('л', ['l']), ('м', ['m']), ('н', ['n']),
   ('о', ['o']), ('п', ['p']), ('р', ['r']), ('с', ['s']), ('т', ['t']),
   ('у', ['u']), ('ф', ['f']), ('х', ['h']), ('ц', ['t', 's']),
   ('ч', ['c', 'h']), ('ш', ['s', 'h']), ('щ', ['s', 'c', 'h']), ('ъ', []),
   ('ы', ['y']), ('ь', []), ('э', ['e']), ('ю', ['y', 'u']), ('я', ['y', 'a'])]

/-- `RU_TO_LATIN.get(ch, ch)`: translate one character, defaulting to
itself. -/
def ruToLatin (c : Char) : List Char :=
  match RU_TO_LATIN.find? (fun p => p.1 == c) with
  | some p => p.2
  | none => [c]

/-- `_transliterate_to_latin` from `src/app/brands.py`. -/
def transliterateToLatin (l : List Char) : List Char :=
  l.flatMap ruToLatin

/-! ## The punctuation-substitution regex of `normalize_brand_token`

The source performs `re.sub(r"[\"'`~!@#$%^&*+=\\[\\]{}:;,.?<>№]", " ", text)`.
Inside the raw string, `\\]` is an escaped backslash followed by `]`, so the
character class actually ends there; the pattern therefore matches one
character of the class below followed by the literal run `{}:;,` then an
optional non-newline character then `<>№]`.  We embed that regex exactly. -/

/-- The character class of the punctuation regex (the part before the
closing `]`): `" ' ` ~ ! @ # $ % ^ & * + = \ [` — given by code point. -/
def inPunctClass (c : Char) : Bool :=
  c.toNat = 34 || c.toNat = 39 || c.toNat = 96 || c.toNat = 126 ||
  c.toNat = 33 || c.toNat = 64 || c.toNat = 35 || c.toNat = 36 ||
  c.toNat = 37 || c.toNat = 94 || c.toNat = 38 || c.toNat = 42 ||
  c.toNat = 43 || c.toNat = 61 || c.toNat = 92 || c.toNat = 91

/-- Attempt to match the punctuation regex at the head of `l`, returning the
remainder after the match.  The greedy `.?` branch (length 11) is tried
first; the two shapes are structurally exclusive. -/
def punctMatch (l : List Char) : Option (List Char) :=
  if inPunctClass (l.getD 0 'x') && l.getD 1 'x' = '{' && l.getD 2 'x' = '}' &&
      l.getD 3 'x' = ':' && l.getD 4 'x' = ';' && l.getD 5 'x' = ',' then
    if 11 ≤ l.length && !(l.getD 6 'x' = '\n') && l.getD 7 'x' = '<' &&
        l.getD 8 'x' = '>' && l.getD 9 'x' = '№' && l.getD 10 'x' = ']' then
      some (l.drop 11)
    else if 10 ≤ l.length && l.getD 6 'x' = '<' && l.getD 7 'x' = '>' &&
        l.getD 8 'x' = '№' && l.getD 9 'x' = ']' then
      some (l.drop 10)
    else none
  else none

/-- One scan step of `re.sub` with the punctuation pattern: each match
consumes at least ten characters, so `l.length` steps always suffice; the
fuel-exhausted base case is unreachable from `pySubPunct`. -/
def pySubPunctFuel : Nat → List Char → List Char
  | 0, l => l
  | _ + 1, [] => []
  | fuel + 1, c :: cs =>
    match punctMatch (c :: cs) with
    | some tail => ' ' :: pySubPunctFuel fuel tail
    | none => c :: pySubPunctFuel fuel cs

/-- `re.sub` with the punctuation pattern, replacing each (non-overlapping,
leftmost) match by a single space. -/
def pySubPunct (l : List Char) : List Char := pySubPunctFuel l.length l

/-- One-pass form of `re.sub(r"\s+", " ", text)`: the first character of a
whitespace run emits a single space, the rest of the run emits nothing. -/
def collapseWsAux : Bool → List Char → List Char
  | _, [] => []
  | inRun, c :: cs =>
    if isPyWs c then
      if inRun then collapseWsAux true cs else ' ' :: collapseWsAux true cs
    else c :: collapseWsAux false cs

/-- `re.sub(r"\s+", " ", text)`: collapse each whitespace run to one space. -/
def collapseWs (l : List Char) : List Char := collapseWsAux false l

/-! ## `normalize_brand_token` -/

/-- Characters of `strip("-_.,")`: `- _ . ,` by code point. -/
def isStripSet1 (c : Char) : Bool :=
  c.toNat = 45 || c.toNat = 95 || c.toNat = 46 || c.toNat = 44

/-- Characters of `strip("-_ ")`: `- _ space` by code point. -/
def isStripSet2 (c : Char) : Bool :=
  c.toNat = 45 || c.toNat = 95 || c.toNat = 32

/-- Lines `raw.strip().lower()` / `text.strip("-_.,")` of
`normalize_brand_token`. -/
def nbtStage1 (raw : String) : List Char :=
  pyStrip isStripSet1 ((pyStrip isPyWs raw.data).map toLowerPy)

/-- The equivalence fold, punctuation substitution, whitespace collapse and
`strip("-_ ")` lines of `normalize_brand_token`. -/
def nbtClean (text : List Char) : List Char :=
  pyStrip isStripSet2 (collapseWs (pySubPunct (text.map ruEquiv)))

/-- The transliteration and `[^0-9a-z]`-removal lines of
`normalize_brand_token`. -/
def nbtToken (text : List Char) : List Char :=
  (transliterateToLatin text).filter isAlnumLower

/-- `normalize_brand_token` from `src/app/brands.py` (string input; the
`None` input is handled by `normalizeBrandTokenOpt` below). -/
def normalizeBrandToken (raw : String) : String :=
  if raw = "" then "" else
  if nbtStage1 raw = [] then "" else
  match pyGet PRE_TRANSLIT_OVERRIDES (String.mk (nbtStage1 raw)) with
  | some v => v
  | none =>
    if nbtClean (nbtStage1 raw) = [] then "" else
    match pyGet PRE_TRANSLIT_OVERRIDES (String.mk (nbtClean (nbtStage1 raw))) with
    | some v => v
    | none =>
      if nbtToken (nbtClean (nbtStage1 raw)) = [] then "" else
      (pyGet POST_TRANSLIT_OVERRIDES
        (String.mk (nbtToken (nbtClean (nbtStage1 raw))))).getD
        (String.mk (nbtToken (nbtClean (nbtStage1 raw))))

/-- `normalize_brand_token` on its full `str | None` domain. -/
def normalizeBrandTokenOpt : Option String → String
  | none => ""
  | some s => normalizeBrandToken s

/-! ## `_damerau_levenshtein` and `_fuzzy_brand_lookup` -/

/-- One inner-loop iteration (`for j in range(1, len_b + 1)`) of
`_damerau_levenshtein`: extend row `i` (built so far as `row`) by entry `j`.
`rows` holds rows `0 .. i-1`. -/
def dlComputeRow (a b : List Char) (rows : List (List Nat)) (i : Nat) :
    List Nat :=
  (List.range b.length).foldl
    (fun row j0 =>
      let j := j0 + 1
      let cost : Nat := if a.getD (i - 1) 'x' = b.getD (j - 1) 'x' then 0 else 1
      let base :=
        min (min ((rows.getD (i - 1) []).getD j 0 + 1) (row.getD (j - 1) 0 + 1))
          ((rows.getD (i - 1) []).getD (j - 1) 0 + cost)
      let v :=
        if 1 < i ∧ 1 < j ∧ a.getD (i - 1) 'x' = b.getD (j - 2) 'x' ∧
            a.getD (i - 2) 'x' = b.getD (j - 1) 'x' then
          min base ((rows.getD (i - 2) []).getD (j - 2) 0 + cost)
        else base
      row ++ [v])
    [i]

/-- The distance matrix of `_damerau_levenshtein` (row 0 is
`0, 1, ..., len_b`; row `i` starts with `i`). -/
def dlRows (a b : List Char) : List (List Nat) :=
  (List.range a.length).foldl
    (fun rows i0 => rows ++ [dlComputeRow a b rows (i0 + 1)])
    [List.range (b.length + 1)]

/-- `_damerau_levenshtein` from `src/app/brands.py`. -/
def damerauLevenshtein (a b : List Char) : Nat :=
  if a = b then 0
  else if a = [] then b.length
  else if b = [] then a.length
  else ((dlRows a b).getD a.length []).getD b.length 0

/-- Similarity score `1 - distance / max_len` used by
`_fuzzy_brand_lookup`, as an exact rational. -/
def dlScore (token k : String) : ℚ :=
  1 - (damerauLevenshtein token.data k.data : ℚ) / (max k.length token.length)

/-- The loop of `_fuzzy_brand_lookup` over `brand_lookup.items()`, carrying
`best_brand` and `best_score`. -/
def fuzzyLoop (token : String) :
    List (String × String) → Option String → ℚ → Option String
  | [], best, _ => best
  | (candidate, brand) :: rest, best, bestScore =>
    if candidate = token then some brand
    else if candidate.length < 4 then fuzzyLoop token rest best bestScore
    else if ¬ (candidate.data.getD 0 'x' = token.data.getD 0 'x') then
      fuzzyLoop token rest best bestScore
    else if 2 < ((candidate.length : Int) - (token.length : Int)).natAbs then
      fuzzyLoop token rest best bestScore
    else if 3 < damerauLevenshtein token.data candidate.data ∨
        max 1 (max candidate.length token.length / 3) <
          damerauLevenshtein token.data candidate.data then
      fuzzyLoop token rest best bestScore
    else if (3 / 5 : ℚ) ≤ dlScore token candidate ∧
        bestScore < dlScore token candidate then
      fuzzyLoop token rest (some brand) (dlScore token candidate)
    else fuzzyLoop token rest best bestScore

/-- `_fuzzy_brand_lookup` from `src/app/brands.py` (`brand_lookup` is the
Token→Brand map in insertion order). -/
def fuzzyBrandLookup (token : String) (brandLookup : List (String × String)) :
    Option String :=
  if token.length < 4 then none
  else fuzzyLoop token brandLookup none 0

/-- The acceptance test a candidate key passes inside
`_fuzzy_brand_lookup` before it can update `best_brand` (given that the
key is not equal to the token itself). -/
def fuzzyAccepted (token k : String) : Prop :=
  4 ≤ k.length ∧
  k.data.getD 0 'x' = token.data.getD 0 'x' ∧
  ((k.length : Int) - (token.length : Int)).natAbs ≤ 2 ∧
  damerauLevenshtein token.data k.data ≤ 3 ∧
  damerauLevenshtein token.data k.data ≤ max 1 (max k.length token.length / 3) ∧
  (3 / 5 : ℚ) ≤ dlScore token k

/-- The claimed bound on accepted candidates: edit distance at most 3 and at
most `⌊max(len)/3⌋`, similarity at least `0.6`. -/
def fuzzyAcceptanceBound (token : String) : Prop :=
  ∀ k : String, fuzzyAccepted token k →
    damerauLevenshtein token.data k.data ≤ 3 ∧
    damerauLevenshtein token.data k.data ≤ max k.length token.length / 3 ∧
    (3 / 5 : ℚ) ≤ dlScore token k

/-- The claimed selection rule: `none` exactly when no candidate is
accepted; otherwise the earliest candidate of maximal similarity wins. -/
def fuzzySelectionSpec (token : String) (m : List (String × String)) : Prop :=
  (fuzzyBrandLookup token m = none → ∀ p ∈ m, ¬ fuzzyAccepted token p.1) ∧
  (∀ b, fuzzyBrandLookup token m = some b →
    ∃ l1 p l2, m = l1 ++ p :: l2 ∧ fuzzyAccepted token p.1 ∧ p.2 = b ∧
      (∀ q ∈ l1, fuzzyAccepted token q.1 →
        dlScore token q.1 < dlScore token p.1) ∧
      (∀ q ∈ l2, fuzzyAccepted token q.1 →
        dlScore token q.1 ≤ dlScore token p.1))

/-! ## Generic-token machinery from `src/app/brands.py` -/

/-- `GENERIC_LABEL_WORDS` (a Python set literal; duplicates are harmless
for membership). -/
def GENERIC_LABEL_WORDS : List String :=
  ["group", "company", "co", "inc", "corp", "corporation", "limited",
   "ltd", "llc", "plc", "pte", "pty", "gmbh", "srl", "sro", "spa", "sa",
   "sas", "sasu", "ab", "ag", "oy", "oyj", "nv", "bv", "ptc", "holding",
   "holdings", "motor", "motors", "moto", "auto", "automobile",
   "automobiles", "automotive", "factory", "industries", "industry",
   "parts", "detail", "details", "service", "services", "equipment",
   "machines", "machinery", "construction", "products", "product",
   "systems", "system", "brand", "electronics", "electronic", "electric",
   "electrical", "oil", "lubricant", "lubricants", "fluid", "fluids",
   "liquid", "grease", "filter", "filters", "bearing", "bearings", "seal",
   "seals", "gasket", "gaskets", "ring", "rings", "belt", "belts", "hose",
   "hoses", "pipe", "pipes", "tube", "tubes", "pump", "pumps", "valve",
   "valves", "cylinder", "cylinders", "liner", "liners", "piston",
   "pistons", "bolt", "bolts", "nut", "nuts", "washer", "washers", "stud",
   "studs", "pin", "pins", "rod", "rods", "spring", "springs", "gear",
   "gears", "gidroprivod", "завод", "компания", "ооо", "zao", "зао", "ooo",
   "holding", "группа", "детали", "деталь", "запчасти", "масло", "масла",
   "маслосъемный", "маслосъемная", "масл", "жидкость", "жидкости",
   "подшипник", "подшипники", "podshipnik", "kronshtein", "koromyslo",
   "gidro", "nasos", "колпачок", "колодка", "колодки", "прокладка",
   "прокладки", "втулка", "втулки", "болт", "болты", "гайка", "гайки",
   "шайба", "шайбы", "шланг", "шланги", "насос", "насосы", "трубка",
   "трубки", "кольцо", "кольца", "ремень", "ремни", "уплотнение",
   "уплотнения", "уплотнитель", "уплотнители", "уплотнительная",
   "уплотнительные", "уплотнительный", "фильтр", "фильтры", "сальник",
   "сальники", "клапан", "клапаны", "гидроцилиндр", "цилиндр", "цилиндры",
   "гидромотор", "поршень", "поршни", "шестерня", "шестерни", "корпус",
   "кронштейн", "рычаг", "рычаги", "пружина", "деталь", "детали",
   "запчасть", "кардан", "фара", "лампа", "лампы", "поддон", "насадка",
   "насадки", "крышка", "крышки", "кожух", "комплект", "комплекты",
   "опора", "опоры", "распылитель", "распылители", "шкворень",
   "сайлентблок", "сайлентблоки", "колесо", "колеса", "quanzhou",
   "shanghai", "moscow", "moskva", "saint", "petersburg", "china",
   "germany", "italy", "japan", "korea", "turkey", "russia"]

/-- `GENERIC_SUFFIXES`, in source order (the for-loop takes the first
match). -/
def GENERIC_SUFFIXES : List String :=
  ["ami", "yami", "kami", "yah", "akh", "ogo", "ego", "omu", "emu", "ami",
   "yakh", "akh", "ov", "ev", "iy", "yy", "iyu", "uyu", "aya", "oy", "ey",
   "iy", "im", "ym", "om", "em", "am", "yam", "iu", "ya", "ia", "a", "y",
   "i", "u", "e", "s", "es"]

/-- `NOISE_STARTERS` (a Python set literal). -/
def NOISE_STARTERS : List String :=
  ["замок", "прокладка", "прокладки", "палец", "пальц", "шланг", "шланги",
   "втулка", "втулки", "масло", "масла", "масел", "маслосъемный",
   "жидкость", "жидкости", "подшипник", "подшипники", "колпачок", "кольцо",
   "кольца", "насос", "насосы", "н/р", "для", "пружина", "пружины",
   "поршень", "поршни", "ремень", "ремни", "кронштейн", "крышка", "болт",
   "гайка", "шайба", "фильтр", "фильтры", "уплотнение", "уплотнения",
   "уплотнитель", "уплотнители", "опора", "опоры", "гидроцилиндр",
   "гидромотор", "деталь", "детали", "комплект", "комплекты"]

/-- Python `str.endswith`. -/
def pyEndsWith (base suffix : String) : Bool :=
  suffix.length ≤ base.length &&
  decide (base.data.drop (base.length - suffix.length) = suffix.data)

/-- One pass of the inner `for suffix in GENERIC_SUFFIXES` loop of
`_strip_generic_suffix`: the first suffix that matches and leaves at least
4 characters is stripped. -/
def stripSuffixOnce (base : String) : List String → Option String
  | [] => none
  | s :: rest =>
    if pyEndsWith base s ∧ 4 ≤ base.length - s.length then
      some (String.mk (base.data.take (base.length - s.length)))
    else stripSuffixOnce base rest

/-- The `while changed` loop of `_strip_generic_suffix`; every strip removes
at least one character, so `base.length` rounds of fuel always suffice. -/
def stripGenericSuffixFuel : Nat → String → String
  | 0, base => base
  | n + 1, base =>
    match stripSuffixOnce base GENERIC_SUFFIXES with
    | some b => stripGenericSuffixFuel n b
    | none => base

/-- `_strip_generic_suffix` from `src/app/brands.py`. -/
def stripGenericSuffix (token : String) : String :=
  if token = "" then "" else stripGenericSuffixFuel token.length token

/-- `_build_generic_label_tokens(GENERIC_LABEL_WORDS)`: normalized forms and
their suffix-stripped bases, empties dropped (set semantics modelled as a
list with membership). -/
def GENERIC_LABEL_TOKENS : List String :=
  ((GENERIC_LABEL_WORDS.map normalizeBrandToken) ++
    (GENERIC_LABEL_WORDS.map
      (fun w => stripGenericSuffix (normalizeBrandToken w)))).filter
    (fun t => ¬ t = "")

/-- `GENERIC_TOKEN_BASES` from `src/app/brands.py`. -/
def GENERIC_TOKEN_BASES : List String :=
  (GENERIC_LABEL_TOKENS.map stripGenericSuffix).filter (fun t => ¬ t = "")

/-- `_is_generic_like_token` from `src/app/brands.py`. -/
def isGenericLikeToken (token : String) : Bool :=
  if token = "" then true
  else if GENERIC_LABEL_TOKENS.contains token then true
  else if GENERIC_TOKEN_BASES.contains (stripGenericSuffix token) then true
  else false

/-! ## Token statistics and trust selection -/

/-- `TokenStats` from `src/app/brands.py`. -/
structure TokenStats where
  occurrences : Nat := 0
  solo_occurrences : Nat := 0
  uppercase_occurrences : Nat := 0
  latin_occurrences : Nat := 0
  hyphen_occurrences : Nat := 0
deriving DecidableEq, Repr

/-- `TokenStats.score`:
`solo*2 + uppercase + hyphen + latin*0.5`, as an exact rational. -/
def TokenStats.score (s : TokenStats) : ℚ :=
  (s.solo_occurrences : ℚ) * 2 + s.uppercase_occurrences +
    s.hyphen_occurrences + (s.latin_occurrences : ℚ) * 0.5

/-- The body of the `for token, stat in stats.items()` loop of
`_select_trusted_tokens` (the trusted set is modelled as a list; only
membership matters). -/
def selectTrustedStep (trusted : List String) (p : String × TokenStats) :
    List String :=
  if p.1 = "" then trusted
  else if isGenericLikeToken p.1 then trusted
  else if 0 < p.2.solo_occurrences then trusted ++ [p.1]
  else if p.2.occurrences ≤ 2 ∧
      (0 < p.2.uppercase_occurrences ∨ 0 < p.2.latin_occurrences) then
    trusted ++ [p.1]
  else if (2.5 : ℚ) ≤ p.2.score then trusted ++ [p.1]
  else trusted

/-- `_select_trusted_tokens` from `src/app/brands.py`. -/
def selectTrusted (stats : List (String × TokenStats)) : List String :=
  stats.foldl selectTrustedStep []

/-- The condition under which one stats entry adds its token to the trusted
set. -/
def trustedQual (p : String × TokenStats) : Prop :=
  isGenericLikeToken p.1 = false ∧
  (0 < p.2.solo_occurrences ∨
    (p.2.occurrences ≤ 2 ∧
      (0 < p.2.uppercase_occurrences ∨ 0 < p.2.latin_occurrences)) ∨
    (2.5 : ℚ) ≤ p.2.score)

instance (p : String × TokenStats) : Decidable (trustedQual p) := by
  unfold trustedQual
  infer_instance

/-! ## Catalog construction from `src/app/brands.py` -/

/-- ASCII letter. -/
def isAsciiLetter (c : Char) : Bool := isAsciiUpper c || isAsciiLower c

/-- Python `str.isalpha` restricted to the scripts in play (ASCII and
Cyrillic `А-я`, `Ё`, `ё`). -/
def pyIsAlpha (c : Char) : Bool :=
  isAsciiLetter c || (1040 ≤ c.toNat && c.toNat ≤ 1103) ||
  c.toNat = 1025 || c.toNat = 1105

/-- Cased characters, as for `pyIsAlpha`. -/
def pyIsCased (c : Char) : Bool := pyIsAlpha c

/-- Python `str.isupper` for a single cased character. -/
def pyIsUpper (c : Char) : Bool :=
  isAsciiUpper c || (1040 ≤ c.toNat && c.toNat ≤ 1071) || c.toNat = 1025

/-- Python `str.isupper` on a string: at least one cased character and
every cased character uppercase. -/
def pyIsUpperStr (s : String) : Bool :=
  s.data.any pyIsCased && s.data.all (fun c => !pyIsCased c || pyIsUpper c)

/-- Alphabetic `[0-9a-z]`-normalized token check (`part.isalpha()` on an
already-normalized part). -/
def pyIsAlphaStr (s : String) : Bool :=
  !s.data.isEmpty && s.data.all pyIsAlpha

/-- A character matched by `TOKEN_PATTERN` (`[0-9A-Za-zА-Яа-яЁё]`). -/
def isTokenChar (c : Char) : Bool :=
  isAsciiDigit c || isAsciiLetter c || (1040 ≤ c.toNat && c.toNat ≤ 1103) ||
  c.toNat = 1025 || c.toNat = 1105

/-- Maximal runs of non-separator characters (the nonempty pieces of a
`re.split` on runs of separators; callers strip each piece and drop
empties, which makes this equivalent to Python semantics). -/
def splitRunsAux (sep : Char → Bool) : List Char → List Char → List (List Char)
  | acc, [] => if acc = [] then [] else [acc.reverse]
  | acc, c :: cs =>
    if sep c then
      if acc = [] then splitRunsAux sep [] cs
      else acc.reverse :: splitRunsAux sep [] cs
    else splitRunsAux sep (c :: acc) cs

/-- `_tokenize_text` (`TOKEN_PATTERN.findall`). -/
def tokenizeText (s : String) : List String :=
  (splitRunsAux (fun c => !isTokenChar c) [] s.data).map String.mk

/-- `_looks_all_caps` from `src/app/brands.py`. -/
def looksAllCaps (text : String) : Bool :=
  let letters := text.data.filter pyIsAlpha
  !letters.isEmpty && letters.all pyIsUpper

/-- `_contains_latin` (`re.search(r"[A-Za-z]", text)`). -/
def containsLatin (s : String) : Bool := s.data.any isAsciiLetter

/-- First alternative of `ARTICLE_CODE_PATTERN`: `[A-Z]{2}\d{3,}`
(IGNORECASE), anchored. -/
def articleAlt1 : List Char → Bool
  | a :: b :: rest =>
    isAsciiLetter a && isAsciiLetter b && 3 ≤ rest.length &&
      rest.all isAsciiDigit
  | _ => false

/-- Second alternative of `ARTICLE_CODE_PATTERN`: three or more digits,
a hyphen or slash, then one or more digits; anchored. -/
def articleAlt2 (l : List Char) : Bool :=
  let ds := l.takeWhile isAsciiDigit
  3 ≤ ds.length &&
    match l.drop ds.length with
    | sep :: rest2 =>
      (decide (sep = '-') || decide (sep = '/')) && !rest2.isEmpty &&
        rest2.all isAsciiDigit
    | [] => false

/-- Third alternative of `ARTICLE_CODE_PATTERN`:
`(?=.*\d)[A-Z0-9-]{6,}` (IGNORECASE), anchored. -/
def articleAlt3 (l : List Char) : Bool :=
  6 ≤ l.length && l.any isAsciiDigit &&
    l.all (fun c => isAsciiLetter c || isAsciiDigit c || c = '-')

/-- `ARTICLE_CODE_PATTERN.match(token)` (the pattern is anchored on both
sides, so `match` means a full-string match here). -/
def matchesArticleCode (s : String) : Bool :=
  articleAlt1 s.data || articleAlt2 s.data || articleAlt3 s.data

/-- `_looks_like_article_code` from `src/app/brands.py`. -/
def looksLikeArticleCode (token : String) : Bool :=
  if token = "" then false
  else if matchesArticleCode token then true
  else
    let digits := (token.data.filter isAsciiDigit).length
    let letters := (token.data.filter pyIsAlpha).length
    3 ≤ digits && letters ≤ digits

/-- `_is_noise_line` from `src/app/brands.py`. -/
def isNoiseLine (line : String) : Bool :=
  let stripped := pyStrip isPyWs line.data
  if stripped = [] then true
  else
    match tokenizeText (String.mk stripped) with
    | [] => true
    | t0 :: restTokens =>
      if looksLikeArticleCode t0 && 0 < restTokens.length then true
      else if NOISE_STARTERS.contains (String.mk (t0.data.map toLowerPy)) then
        true
      else
        let digits := (stripped.filter isAsciiDigit).length
        let letters := (stripped.filter pyIsAlpha).length
        0 < digits && letters * 2 ≤ digits

/-- `_should_split_hyphen` from `src/app/brands.py`. -/
def shouldSplitHyphen (value : String) : Bool :=
  if !value.data.contains '-' then false
  else if pyIsUpperStr value then true
  else
    let parts := (splitRunsAux (fun c => c = '-') [] value.data).filterMap
      (fun s0 =>
        let s := pyStrip isPyWs s0
        if s = [] then none else some (String.mk s))
    if parts.length < 2 then false
    else
      let nonEmptyNorm :=
        (parts.map normalizeBrandToken).filter (fun p => !(p == ""))
      if nonEmptyNorm.length < 2 then false
      else nonEmptyNorm.all (fun part => pyIsAlphaStr part && 3 ≤ part.length)

/-- `_split_segments` from `src/app/brands.py`. -/
def splitSegments (line : String) : List String :=
  (splitRunsAux (fun c =>
      c = ',' || c = '/' || c = '|' || c = '(' || c = ')') [] line.data).flatMap
    (fun seg0 =>
      let part := pyStrip isPyWs seg0
      if part = [] then []
      else if shouldSplitHyphen (String.mk part) then
        (splitRunsAux (fun c => c = '-') [] part).flatMap (fun sub0 =>
          let sub := pyStrip isPyWs sub0
          if sub = [] then [] else [String.mk sub])
      else [String.mk part])

/-- The guards applied to a normalized token inside `_tokens_from_label`:
drop empty or short or generic-like tokens. -/
def normTokenGuard (normalized : String) : Option String :=
  if normalized = "" then none
  else if normalized.length < 3 then none
  else if isGenericLikeToken normalized then none
  else some normalized

/-- The body of the `for raw_token in _tokenize_text(label)` loop of
`_tokens_from_label`. -/
def labelTokenStep (raw : String) : Option String :=
  if looksLikeArticleCode raw then none
  else normTokenGuard (normalizeBrandToken raw)

/-- `_tokens_from_label` from `src/app/brands.py`. -/
def tokensFromLabel (label : String) : List String :=
  (tokenizeText label).filterMap labelTokenStep

/-- `LabelCandidate` from `src/app/brands.py`. -/
structure LabelCandidate where
  text : String
  tokens : List String
  is_upper : Bool
  has_latin : Bool
  token_count : Nat
  hyphenated : Bool
deriving DecidableEq, Repr

/-- The `LabelCandidate` record built by `_collect_candidates` for one
segment with the given token list. -/
def mkCandidate (seg : String) (tokens : List String) : LabelCandidate :=
  { text := String.mk (pyStrip isPyWs seg.data)
    tokens := tokens
    is_upper := looksAllCaps seg
    has_latin := containsLatin seg
    token_count := tokens.length
    hyphenated := seg.data.contains '-' }

/-- Build the `LabelCandidate` for one segment, or `none` when it has no
usable tokens (the `if not tokens: continue` branch of
`_collect_candidates`). -/
def segmentCandidate (seg : String) : Option LabelCandidate :=
  if tokensFromLabel seg = [] then none
  else some (mkCandidate seg (tokensFromLabel seg))

/-- The candidate list produced by `_collect_candidates`. -/
def collectCandidatesList (lines : List String) : List LabelCandidate :=
  (lines.filter (fun l => !isNoiseLine l)).flatMap
    (fun line => (splitSegments line).filterMap segmentCandidate)

/-- `defaultdict(TokenStats)` update: modify the entry in place if present,
else append a fresh default entry (insertion order = first touch). -/
def statsUpdate (stats : List (String × TokenStats)) (token : String)
    (f : TokenStats → TokenStats) : List (String × TokenStats) :=
  match stats with
  | [] => [(token, f {})]
  | p :: rest =>
    if p.1 = token then (p.1, f p.2) :: rest
    else p :: statsUpdate rest token f

/-- The per-token counter increments of `_collect_candidates`. -/
def bumpStats (cand : LabelCandidate) (token : String) (stat : TokenStats) :
    TokenStats :=
  { occurrences := stat.occurrences + 1
    solo_occurrences :=
      stat.solo_occurrences + (if cand.token_count = 1 then 1 else 0)
    uppercase_occurrences :=
      stat.uppercase_occurrences + (if cand.is_upper then 1 else 0)
    latin_occurrences :=
      stat.latin_occurrences +
        (if cand.has_latin || containsLatin token then 1 else 0)
    hyphen_occurrences :=
      stat.hyphen_occurrences + (if cand.hyphenated then 1 else 0) }

/-- The statistics accumulated by `_collect_candidates` over the candidate
list. -/
def collectStats (cands : List LabelCandidate) : List (String × TokenStats) :=
  cands.foldl
    (fun st cand =>
      cand.tokens.foldl (fun st tok => statsUpdate st tok (bumpStats cand tok))
        st)
    []

/-- `Brand` from `src/app/brands.py` (the `labels`/`tokens` sets are
modelled as lists; only membership matters). -/
structure Brand where
  id : String
  labels : List String := []
  tokens : List String := []
deriving DecidableEq, Repr

/-- Python `set.add`. -/
def listInsert (l : List String) (x : String) : List String :=
  if l.contains x then l else l ++ [x]

/-- `dict.setdefault(k, v)` on the Token→Brand map (insert only when the
key is absent). -/
def mapSetdefault (m : List (String × String)) (k v : String) :
    List (String × String) :=
  match pyGet m k with
  | some _ => m
  | none => m ++ [(k, v)]

/-- `brands.setdefault(canonical, Brand(id=canonical))`. -/
def brandsEnsure (brands : List (String × Brand)) (id : String) :
    List (String × Brand) :=
  if (brands.find? (fun p => p.1 == id)).isSome then brands
  else brands ++ [(id, { id := id })]

/-- In-place mutation of the (unique) brand stored under `id`. -/
def brandsModify (brands : List (String × Brand)) (id : String)
    (f : Brand → Brand) : List (String × Brand) :=
  brands.map (fun p => if p.1 = id then (p.1, f p.2) else p)

/-- The body of the `for token in candidate.tokens` loop of
`_register_candidate`. -/
def registerTokensStep (canonical : String) (trusted : List String)
    (acc : List (String × Brand) × List (String × String)) (token : String) :
    List (String × Brand) × List (String × String) :=
  if !trusted.contains token then acc
  else
    (brandsModify acc.1 canonical
      (fun b => { b with tokens := listInsert b.tokens token }),
     mapSetdefault acc.2 token canonical)

/-- `_register_candidate` from `src/app/brands.py`, acting on the pair
(brands, token_map). -/
def registerCandidate (cand : LabelCandidate) (trusted : List String)
    (st : List (String × Brand) × List (String × String)) :
    List (String × Brand) × List (String × String) :=
  match cand.tokens.find? (fun t => trusted.contains t) with
  | none => st
  | some canonical =>
    let brands := brandsModify (brandsEnsure st.1 canonical) canonical
      (fun b => { b with labels := listInsert b.labels cand.text })
    let st2 := cand.tokens.foldl (registerTokensStep canonical trusted)
      (brands, st.2)
    (brandsModify st2.1 canonical
      (fun b => { b with tokens := listInsert b.tokens canonical }),
     mapSetdefault st2.2 canonical canonical)

/-- `build_brand_catalog` from `src/app/brands.py`. -/
def buildBrandCatalog (lines : List String) :
    List (String × Brand) × List (String × String) :=
  let candidates := collectCandidatesList lines
  let trusted := selectTrusted (collectStats candidates)
  candidates.foldl (fun st cand => registerCandidate cand trusted st) ([], [])

/-! ## `src/app/utils.py`: URL parsing collaborator (`urllib.parse`)

`classify_query` delegates URL handling to CPython's `urlparse`/`parse_qs`
(Python 3.11).  Those are embedded below.  `urlsplit` raises `ValueError`
on an authority with unbalanced square brackets, and can also raise on
bracketed hosts that are not valid IPv6/IPvFuture addresses and on some
non-ASCII authorities; the embedding returns `none` for every authority
containing a bracket or a non-ASCII character (conservative for the two
latter groups), and every success theorem below assumes a bracket-free
ASCII authority, where the embedding agrees with CPython exactly. -/

/-- Split a character list on every occurrence of `sep`, keeping empty
pieces (Python `str.split(sep)`). -/
def splitOnChar (sep : Char) : List Char → List (List Char)
  | [] => [[]]
  | c :: cs =>
    let r := splitOnChar sep cs
    if c = sep then [] :: r
    else
      match r with
      | h :: t => (c :: h) :: t
      | [] => [[c]]

/-- Python `str.split(sep, 1)`: the part before the first `sep` and,
when `sep` occurs, the part after it. -/
def splitFirst (sep : Char) : List Char → List Char × Option (List Char)
  | [] => ([], none)
  | c :: cs =>
    if c = sep then ([], some cs)
    else
      let r := splitFirst sep cs
      (c :: r.1, r.2)

/-- `str.split(sep, 1)` collapsed to a pair (second component empty when
`sep` does not occur) — the shape used by `urlsplit` for `#` and `?`. -/
def splitFirstTotal (sep : Char) (l : List Char) : List Char × List Char :=
  match splitFirst sep l with
  | (a, some b) => (a, b)
  | (a, none) => (a, [])

/-- A character of `scheme_chars` (ASCII letters, digits, `+`, `-`, `.`). -/
def isSchemeChar (c : Char) : Bool :=
  isAsciiLetter c || isAsciiDigit c || c = '+' || c = '-' || c = '.'

/-- The scheme-splitting step of `urlsplit`: split off `scheme:` when the
text before the first colon is a nonempty run of scheme characters
starting with an ASCII letter. -/
def schemeSplit (l : List Char) : List Char × List Char :=
  let pre := l.takeWhile (fun c => !(c = ':'))
  if pre.length = l.length then ([], l)
  else if 0 < pre.length && isAsciiLetter (pre.getD 0 'x') &&
      pre.all isSchemeChar then
    (pre.map toLowerPy, l.drop (pre.length + 1))
  else ([], l)

/-- `SplitResult` of `urllib.parse.urlsplit`. -/
structure SplitResultPy where
  scheme : List Char
  netloc : List Char
  path : List Char
  query : List Char
  fragment : List Char
deriving DecidableEq, Repr

/-- `urllib.parse.urlsplit` (CPython 3.11): `none` models a raised
`ValueError` (see the section comment for the conservative treatment of
bracketed and non-ASCII authorities). -/
def pyUrlsplit (url : List Char) : Option SplitResultPy :=
  let u0 := url.dropWhile (fun c => c.toNat ≤ 32)
  let u1 := u0.filter (fun c => !(c = '\t' || c = '\r' || c = '\n'))
  let sp := schemeSplit u1
  let scheme := sp.1
  let u2 := sp.2
  if u2.take 2 = ['/', '/'] then
    let netloc := (u2.drop 2).takeWhile (fun c => !(c = '/' || c = '?' || c = '#'))
    let rest := (u2.drop 2).dropWhile (fun c => !(c = '/' || c = '?' || c = '#'))
    if netloc.contains '[' || netloc.contains ']' ||
        netloc.any (fun c => 127 < c.toNat) then none
    else
      let f := splitFirstTotal '#' rest
      let qsplit := splitFirstTotal '?' f.1
      some { scheme := scheme, netloc := netloc, path := qsplit.1,
             query := qsplit.2, fragment := f.2 }
  else
    let f := splitFirstTotal '#' u2
    let qsplit := splitFirstTotal '?' f.1
    some { scheme := scheme, netloc := [], path := qsplit.1,
           query := qsplit.2, fragment := f.2 }

/-- `uses_params` from `urllib.parse`. -/
def USES_PARAMS : List String :=
  ["", "ftp", "hdl", "prospero", "http", "imap", "https", "shttp", "rtsp",
   "rtsps", "rtspu", "sip", "sips", "mms", "sftp", "tel"]

/-- `_splitparams` from `urllib.parse`: split `;params` off the last path
segment. -/
def splitParamsPair (path : List Char) : List Char × List Char :=
  if path.contains '/' then
    let suffix := (path.reverse.takeWhile (fun c => !(c = '/'))).reverse
    let pre := path.take (path.length - suffix.length)
    if suffix.contains ';' then
      (pre ++ suffix.takeWhile (fun c => !(c = ';')),
       (splitFirstTotal ';' suffix).2)
    else (path, [])
  else if path.contains ';' then
    ((splitFirstTotal ';' path).1, (splitFirstTotal ';' path).2)
  else (path, [])

/-- `ParseResult` of `urllib.parse.urlparse`. -/
structure ParseResultPy where
  scheme : List Char
  netloc : List Char
  path : List Char
  params : List Char
  query : List Char
  fragment : List Char
deriving DecidableEq, Repr

/-- `urllib.parse.urlparse` (CPython 3.11). -/
def pyUrlparse (url : List Char) : Option ParseResultPy :=
  match pyUrlsplit url with
  | none => none
  | some r =>
    let pp :=
      if USES_PARAMS.contains (String.mk r.scheme) && r.path.contains ';' then
        splitParamsPair r.path
      else (r.path, [])
    some { scheme := r.scheme, netloc := r.netloc, path := pp.1,
           params := pp.2, query := r.query, fragment := r.fragment }

/-- Hexadecimal digit test for percent-decoding. -/
def isHexDigit (c : Char) : Bool :=
  isAsciiDigit c || (97 ≤ c.toNat && c.toNat ≤ 102) ||
  (65 ≤ c.toNat && c.toNat ≤ 70)

/-- Value of a hexadecimal digit. -/
def hexVal (c : Char) : Nat :=
  if isAsciiDigit c then c.toNat - 48
  else if 97 ≤ c.toNat && c.toNat ≤ 102 then c.toNat - 87
  else c.toNat - 55

/-- `urllib.parse.unquote` with one simplification: each decoded `%XX`
byte becomes the character of that code point, whereas CPython assembles
consecutive bytes and decodes them as UTF-8 (`errors="replace"`).  The two
agree on ASCII bytes; non-ASCII bytes produce non-alphanumeric characters
either way, which the callers here strip out. -/
def pyUnquoteFuel : Nat → List Char → List Char
  | 0, l => l
  | _ + 1, [] => []
  | fuel + 1, '%' :: a :: b :: rest2 =>
    if isHexDigit a && isHexDigit b then
      Char.ofNat (hexVal a * 16 + hexVal b) :: pyUnquoteFuel fuel rest2
    else '%' :: pyUnquoteFuel fuel (a :: b :: rest2)
  | fuel + 1, c :: cs => c :: pyUnquoteFuel fuel cs

/-- See `pyUnquoteFuel`; each step consumes at least one character, so the
input length is always enough fuel. -/
def pyUnquote (l : List Char) : List Char := pyUnquoteFuel l.length l

/-- `'+'` to space, as applied by `parse_qsl` before unquoting. -/
def plusToSpace (l : List Char) : List Char :=
  l.map (fun c => if c = '+' then ' ' else c)

/-- `urllib.parse.parse_qsl` with default arguments (blank values and
bare names dropped, separator `&`). -/
def parseQsl (qs : List Char) : List (List Char × List Char) :=
  if qs = [] then []
  else
    (splitOnChar '&' qs).filterMap (fun nv =>
      if nv = [] then none
      else
        match splitFirst '=' nv with
        | (_, none) => none
        | (name, some value) =>
          if value = [] then none
          else some (pyUnquote (plusToSpace name), pyUnquote (plusToSpace value)))

/-- One `dict` insertion step of `parse_qs` (values grouped per name in
first-occurrence order). -/
def addToGroup : List (List Char × List (List Char)) → List Char → List Char →
    List (List Char × List (List Char))
  | [], k, v => [(k, [v])]
  | p :: rest, k, v =>
    if p.1 = k then (p.1, p.2 ++ [v]) :: rest
    else p :: addToGroup rest k v

/-- `urllib.parse.parse_qs` with default arguments. -/
def parseQs (qs : List Char) : List (List Char × List (List Char)) :=
  (parseQsl qs).foldl (fun d nv => addToGroup d nv.1 nv.2) []

/-! ## `src/app/utils.py`: classifier -/

/-- `QueryKind` from `src/app/utils.py`. -/
inductive QueryKind where
  | url
  | article
  | brand_only
  | brand_with_generic
  | generic_only
  | unknown
deriving DecidableEq, Repr

/-- `QueryClassification` from `src/app/utils.py` (`total=False` keys
modelled as `Option` fields, `none` = key absent). -/
structure QueryClassification where
  kind : QueryKind
  query : String
  tokens : Option (List String) := none
  brands : Option (List String) := none
  brand_originals : Option (List (String × String)) := none
  generic_tokens : Option (List String) := none
  normalized_code : Option String := none
  url_tokens : Option (List String) := none
deriving DecidableEq, Repr

/-- `STOPWORDS` from `src/app/utils.py`. -/
def STOPWORDS : List String :=
  ["the", "a", "an", "и", "в", "на", "для", "с", "без", "под", "из", "до",
   "по", "от", "to", "for", "with", "масло", "масла", "моторное",
   "моторные", "фильтр", "к", "как", "and", "oil", "engine", "motor",
   "lubricant", "lubricants"]

/-- A character matched by `CYRILLIC_PATTERN` (`[А-Яа-яЁё]`). -/
def isCyrillicChar (c : Char) : Bool :=
  (1040 ≤ c.toNat && c.toNat ≤ 1103) || c.toNat = 1025 || c.toNat = 1105

/-- Case-insensitive ASCII prefix test: `pat` (already lowercase) is a
prefix of `l` lowercased. -/
def startsWithLower : List Char → List Char → Bool
  | [], _ => true
  | _ :: _, [] => false
  | p :: ps, c :: cs => p = toLowerPy c && startsWithLower ps cs

/-- `URL_PATTERN.search` (`https?://`, IGNORECASE) on a character list. -/
def urlSearchAux : List Char → Bool
  | [] => false
  | c :: cs =>
    startsWithLower "http://".data (c :: cs) ||
    startsWithLower "https://".data (c :: cs) ||
    urlSearchAux cs

/-- `URL_PATTERN.search(q)`. -/
def urlPatternSearch (s : String) : Bool := urlSearchAux s.data

/-- A character of `ARTICLE_CHAR_PATTERN`'s class
(`0-9A-Za-z`, `-`, `_`, `/`, backslash, `)`). -/
def isArticleChar (c : Char) : Bool :=
  isAsciiDigit c || isAsciiLetter c || c = '-' || c = '_' || c = '/' ||
  c = '\\' || c = ')'

/-- `ARTICLE_CHAR_PATTERN.match(s)` succeeding, i.e. `s` is a nonempty run
of article characters.  (Python `$` would also match before one trailing
newline, but `classify_query` only applies this to stripped text.) -/
def articleCharMatch (s : String) : Bool :=
  !s.data.isEmpty && s.data.all isArticleChar

/-- ASCII uppercasing, applied by `normalize_code` after all non-ASCII
characters have been filtered out. -/
def toUpperAscii (c : Char) : Char :=
  if 97 ≤ c.toNat && c.toNat ≤ 122 then Char.ofNat (c.toNat - 32) else c

/-- `normalize_code` from `src/app/utils.py`. -/
def normalizeCode (code : String) : String :=
  String.mk
    ((code.data.filter (fun c => isAsciiDigit c || isAsciiLetter c)).map
      toUpperAscii)

/-- `is_probable_article_query` from `src/app/utils.py`; the float
comparison `digit_like / max(len, 1) > 0.5` is exact for these integer
operands and is written as `len < 2 * digit_like`. -/
def isProbableArticleQuery (q : String) : Bool :=
  let cleaned := pyStrip isPyWs q.data
  if cleaned = [] then false
  else if cleaned.contains ' ' && 20 < cleaned.length then false
  else
    cleaned.length <
      2 * (cleaned.filter (fun c => isAsciiDigit c || c = '-' || c = '_' ||
        c = '/' || c = '\\')).length

/-- `_strip_non_alnum` from `src/app/utils.py`. -/
def stripNonAlnum (l : List Char) : List Char :=
  l.filter (fun c => isAsciiDigit c || isAsciiLetter c)

/-- The tokens contributed by the final path segment in
`extract_url_tokens`. -/
def pathLastToken (path : List Char) : List (List Char) :=
  match ((splitOnChar '/' path).filter (fun p => !(p = []))).getLast? with
  | some last => [stripNonAlnum last]
  | none => []

/-- `extract_url_tokens` from `src/app/utils.py`; `none` models the
`ValueError` propagated out of `urlparse`. -/
def extractUrlTokens (q : String) : Option (List String) :=
  if q = "" || !urlPatternSearch q then some []
  else
    match pyUrlparse q.data with
    | none => none
    | some parts =>
      some (((pathLastToken parts.path ++
        (parseQs parts.query).flatMap (fun p => p.2.map stripNonAlnum)).filter
          (fun t => !(t = []))).map String.mk)

/-- `RU_TO_LATIN` from `src/app/utils.py` (this table differs from the one
in `brands.py`: here `й` maps to `y`). -/
def RU_TO_LATIN_U : List (Char × List Char) :=
  [('а', ['a']), ('б', ['b']), ('в', ['v']), ('г', ['g']), ('д', ['d']),
   ('е', ['e']), ('ё', ['e']), ('ж', ['z', 'h']), ('з', ['z']), ('и', ['i']),
   ('й', ['y']), ('к', ['k']), ('л', ['l']), ('м', ['m']), ('н', ['n']),
   ('о', ['o']), ('п', ['p']), ('р', ['r']), ('с', ['s']), ('т', ['t']),
   ('у', ['u']), ('ф', ['f']), ('х', ['h']), ('ц', ['t', 's']),
   ('ч', ['c', 'h']), ('ш', ['s', 'h']), ('щ', ['s', 'c', 'h']), ('ъ', []),
   ('ы', ['y']), ('ь', []), ('э', ['e']), ('ю', ['y', 'u']), ('я', ['y', 'a'])]

/-- `RU_TO_LATIN.get(ch.lower(), ch)` as used by `transliterate_query`:
look up the lowercased character, defaulting to the original. -/
def ruToLatinUGet (lowered original : Char) : List Char :=
  match RU_TO_LATIN_U.find? (fun p => p.1 == lowered) with
  | some p => p.2
  | none => [original]

/-- `sorted(LATIN_TO_RU.items(), key=lambda kv: -len(kv[0]))`, computed
from the utils `RU_TO_LATIN`: dict-comprehension inversion keeps the first
occurrence position of each key with the last writer's value (`e` ends at
`э`, `y` at `ы`, `i` at `и`), and the stable sort brings longer keys
first. -/
def LATIN_TO_RU_SORTED : List (List Char × Char) :=
  [(['s', 'c', 'h'], 'щ'),
   (['z', 'h'], 'ж'), (['t', 's'], 'ц'), (['c', 'h'], 'ч'),
   (['s', 'h'], 'ш'), (['y', 'u'], 'ю'), (['y', 'a'], 'я'),
   (['a'], 'а'), (['b'], 'б'), (['v'], 'в'), (['g'], 'г'), (['d'], 'д'),
   (['e'], 'э'), (['z'], 'з'), (['i'], 'и'), (['y'], 'ы'), (['k'], 'к'),
   (['l'], 'л'), (['m'], 'м'), (['n'], 'н'), (['o'], 'о'), (['p'], 'п'),
   (['r'], 'р'), (['s'], 'с'), (['t'], 'т'), (['u'], 'у'), (['f'], 'ф'),
   (['h'], 'х')]

/-- The first (longest-preferred) table entry matching a prefix of `l`. -/
def latinToRuFind (l : List Char) : Option (Char × Nat) :=
  match LATIN_TO_RU_SORTED.find? (fun p => p.1.isPrefixOf l) with
  | some p => some (p.2, p.1.length)
  | none => none

/-- The greedy Latin-to-Cyrillic chunk loop of `transliterate_query`
(fuel-driven; each step consumes at least one character, so the input
length suffices). -/
def latinToRuGreedy : Nat → List Char → List Char
  | 0, l => l
  | _ + 1, [] => []
  | fuel + 1, c :: cs =>
    match latinToRuFind (c :: cs) with
    | some (ru, n) => ru :: latinToRuGreedy fuel ((c :: cs).drop n)
    | none => c :: latinToRuGreedy fuel cs

/-- `transliterate_query` from `src/app/utils.py`. -/
def transliterateQuery (q : String) : String :=
  if q = "" then ""
  else if q.data.any isCyrillicChar then
    String.mk (q.data.flatMap (fun ch => ruToLatinUGet (toLowerPy ch) ch))
  else
    String.mk (latinToRuGreedy q.data.length (q.data.map toLowerPy))

/-- `_tokenize_query` (`re.split` on runs of whitespace and
`, ; | / \\`, empties dropped). -/
def tokenizeQuery (q : String) : List String :=
  (splitRunsAux (fun c => isPyWs c || c = ',' || c = ';' || c = '|' ||
    c = '/' || c = '\\') [] q.data).map String.mk

/-- Modelled from the spec: `find_brand_for_token` is imported by
`src/app/utils.py` from `src/app/brands.py`, but no definition of it
appears in the source tree.  Per spec section 4.3 (Brand Resolver) it
normalizes the token, returns an exact hit from the Token→Brand map, and
otherwise falls back to the guarded fuzzy lookup (which itself enforces
the length-at-least-4 rule). -/
def findBrandForToken (brandMap : List (String × String)) (token : String) :
    Option String :=
  match pyGet brandMap (normalizeBrandToken token) with
  | some b => some b
  | none => fuzzyBrandLookup (normalizeBrandToken token) brandMap

/-- `_token_variants` from `src/app/utils.py`. -/
def tokenVariants (token : String) : List String :=
  if token = "" then []
  else
    let v1 := [token]
    let v2 :=
      if !(normalizeBrandToken token = "") &&
          !v1.contains (normalizeBrandToken token) then
        v1 ++ [normalizeBrandToken token]
      else v1
    if !(transliterateQuery token = "") &&
        !v2.contains (transliterateQuery token) then
      v2 ++ [transliterateQuery token]
    else v2

/-- The `for variant in _token_variants(token)` loop of
`detect_brand_tokens`: the first variant that resolves to a brand not yet
recorded wins (a resolved but already-recorded brand does not break the
loop). -/
def variantScan (brandMap : List (String × String))
    (originals : List (String × String)) : List String → Option String
  | [] => none
  | v :: rest =>
    match findBrandForToken brandMap v with
    | some canonical =>
      if canonical = "" then variantScan brandMap originals rest
      else if (originals.find? (fun p => p.1 == canonical)).isSome then
        variantScan brandMap originals rest
      else some canonical
    | none => variantScan brandMap originals rest

/-- `detect_brand_tokens` from `src/app/utils.py`: canonical brand keys in
first-encounter order plus the original surface token per brand. -/
def detectBrandTokens (brandMap : List (String × String))
    (tokens : List String) : List String × List (String × String) :=
  tokens.foldl
    (fun acc token =>
      if STOPWORDS.contains (normalizeBrandToken token) then acc
      else
        match variantScan brandMap acc.2 (tokenVariants token) with
        | some canonical => (acc.1 ++ [canonical], acc.2 ++ [(canonical, token)])
        | none => acc)
    ([], [])

/-- `_collect_generic_tokens` from `src/app/utils.py`. -/
def collectGenericTokens (tokens : List String)
    (originals : List (String × String)) : List String :=
  tokens.filterMap (fun token =>
    if normalizeBrandToken token = "" then none
    else if (originals.map Prod.snd).contains token then none
    else if (normalizeBrandToken token).data.all isAsciiDigit &&
        3 < (normalizeBrandToken token).length then some token
    else if STOPWORDS.contains (normalizeBrandToken token) then none
    else some token)

/-- The kind chosen by the final branch of `classify_query`. -/
def tokenKind (brandKeys genericTokens : List String) : QueryKind :=
  if !(brandKeys = []) then
    if !(genericTokens = []) then QueryKind.brand_with_generic
    else QueryKind.brand_only
  else if !(genericTokens = []) then QueryKind.generic_only
  else QueryKind.unknown

/-- The body of `classify_query` applied to the stripped query text. -/
def classifyStripped (brandMap : List (String × String))
    (stripped : String) : Option QueryClassification :=
  if stripped = "" then some { kind := QueryKind.unknown, query := stripped }
  else if urlPatternSearch stripped then
    match extractUrlTokens stripped with
    | none => none
    | some tokens =>
      some { kind := QueryKind.url, query := stripped,
             url_tokens := some tokens }
  else if isProbableArticleQuery stripped && articleCharMatch stripped then
    some { kind := QueryKind.article, query := stripped,
           normalized_code := some (normalizeCode stripped) }
  else if tokenizeQuery stripped = [] then
    some { kind := QueryKind.unknown, query := stripped,
           tokens := some (tokenizeQuery stripped) }
  else
    some { kind := tokenKind
             (detectBrandTokens brandMap (tokenizeQuery stripped)).1
             (collectGenericTokens (tokenizeQuery stripped)
               (detectBrandTokens brandMap (tokenizeQuery stripped)).2)
           query := stripped
           tokens := some (tokenizeQuery stripped)
           brands := some (detectBrandTokens brandMap
             (tokenizeQuery stripped)).1
           brand_originals := some (detectBrandTokens brandMap
             (tokenizeQuery stripped)).2
           generic_tokens := some (collectGenericTokens
             (tokenizeQuery stripped)
             (detectBrandTokens brandMap (tokenizeQuery stripped)).2) }

/-- `classify_query` from `src/app/utils.py`, parameterized by the
Token→Brand map used by the resolver; `none` models a propagated
exception (which can only arise in the URL branch, from `urlparse`). -/
def classifyQuery (brandMap : List (String × String)) (q : String) :
    Option QueryClassification :=
  classifyStripped brandMap (String.mk (pyStrip isPyWs q.data))

example : normalizeBrandToken "тойота" = "toyota" := by decide
example : normalizeBrandToken " Toyota " = "toyota" := by decide
example : normalizeBrandToken "toiota" = "toyota" := by decide
example : normalizeBrandToken "Лукойл" = "lukoil" := by decide
example : normalizeBrandToken "" = "" := by decide
example : normalizeBrandToken "-_.," = "" := by decide

example : damerauLevenshtein "ab".data "ba".data = 1 := by decide
example : damerauLevenshtein "kitten".data "sitting".data = 3 := by decide
example : damerauLevenshtein "toyta".data "toyota".data = 1 := by decide

/-! ## Basic lemmas about the embedded primitives -/

theorem pyGet_mem {m : List (String × String)} {k v : String}
    (h : pyGet m k = some v) : ∃ p ∈ m, p.2 = v := by
  unfold pyGet at h
  cases hf : m.find? (fun p => p.1 == k) with
  | none => rw [hf] at h; exact absurd h (by simp)
  | some p =>
    rw [hf] at h
    simp only [Option.map_some', Option.some.injEq] at h
    exact ⟨p, List.mem_of_find?_eq_some hf, h⟩

theorem pyGet_eq_none {m : List (String × String)} {k : String} :
    pyGet m k = none ↔ ∀ p ∈ m, p.1 ≠ k := by
  unfold pyGet
  simp [List.find?_eq_none]

theorem alnum_bounds {c : Char} (h : isAlnumLower c = true) :
    (48 ≤ c.toNat ∧ c.toNat ≤ 57) ∨ (97 ≤ c.toNat ∧ c.toNat ≤ 122) := by
  simpa only [isAlnumLower, isAsciiDigit, isAsciiLower, Bool.or_eq_true,
    Bool.and_eq_true, decide_eq_true_eq] using h

theorem isPyWs_of_alnum {c : Char} (h : isAlnumLower c = true) :
    isPyWs c = false := by
  have hb := alnum_bounds h
  simp only [isPyWs, Bool.or_eq_false_iff, Bool.and_eq_false_iff,
    decide_eq_false_iff_not]
  omega

theorem isStripSet1_of_alnum {c : Char} (h : isAlnumLower c = true) :
    isStripSet1 c = false := by
  have hb := alnum_bounds h
  simp only [isStripSet1, Bool.or_eq_false_iff, decide_eq_false_iff_not]
  omega

theorem isStripSet2_of_alnum {c : Char} (h : isAlnumLower c = true) :
    isStripSet2 c = false := by
  have hb := alnum_bounds h
  simp only [isStripSet2, Bool.or_eq_false_iff, decide_eq_false_iff_not]
  omega

theorem inPunctClass_of_alnum {c : Char} (h : isAlnumLower c = true) :
    inPunctClass c = false := by
  have hb := alnum_bounds h
  simp only [inPunctClass, Bool.or_eq_false_iff, decide_eq_false_iff_not]
  omega

theorem toLowerPy_noop {c : Char} (h : isAlnumLower c = true) :
    toLowerPy c = c := by
  have hb := alnum_bounds h
  unfold toLowerPy
  split_ifs with h1 h2 h3
  · exfalso; simp only [Bool.and_eq_true, decide_eq_true_eq] at h1; omega
  · exfalso; simp only [Bool.and_eq_true, decide_eq_true_eq] at h2; omega
  · exfalso; omega
  · rfl

theorem ruEquiv_noop {c : Char} (h : isAlnumLower c = true) :
    ruEquiv c = c := by
  unfold ruEquiv
  split_ifs with h1 h2
  · subst h1; exact absurd h (by decide)
  · subst h2; exact absurd h (by decide)
  · rfl

theorem ru_to_latin_keys_cyrillic : ∀ p ∈ RU_TO_LATIN, 1072 ≤ p.1.toNat := by
  decide

theorem ruToLatin_noop {c : Char} (h : isAlnumLower c = true) :
    ruToLatin c = [c] := by
  have hb := alnum_bounds h
  have hfind : RU_TO_LATIN.find? (fun p => p.1 == c) = none := by
    rw [List.find?_eq_none]
    intro p hp
    have hk := ru_to_latin_keys_cyrillic p hp
    simp only [beq_iff_eq]
    intro heq
    rw [heq] at hk
    omega
  unfold ruToLatin
  rw [hfind]

theorem dropWhile_noop {p : Char → Bool} {l : List Char}
    (h : ∀ c ∈ l, p c = false) : l.dropWhile p = l := by
  cases l with
  | nil => rfl
  | cons c cs => simp [List.dropWhile_cons, h c (List.mem_cons_self c cs)]

theorem pyStrip_noop {p : Char → Bool} {l : List Char}
    (h : ∀ c ∈ l, p c = false) : pyStrip p l = l := by
  unfold pyStrip
  rw [dropWhile_noop h, dropWhile_noop fun c hc => h c (List.mem_reverse.mp hc),
    List.reverse_reverse]

theorem map_noop {f : Char → Char} {l : List Char}
    (h : ∀ c ∈ l, f c = c) : l.map f = l := by
  induction l with
  | nil => rfl
  | cons c cs ih => simp [h c (by simp), ih fun x hx => h x (by simp [hx])]

theorem punctMatch_none_of_alnum {l : List Char}
    (h : ∀ c ∈ l, isAlnumLower c = true) : punctMatch l = none := by
  have h0 : inPunctClass (l.getD 0 'x') = false := by
    cases l with
    | nil => decide
    | cons c cs => exact inPunctClass_of_alnum (h c (List.mem_cons_self c cs))
  unfold punctMatch
  rw [h0]
  simp

theorem pySubPunctFuel_noop (fuel : Nat) :
    ∀ l : List Char, (∀ c ∈ l, isAlnumLower c = true) →
      pySubPunctFuel fuel l = l := by
  induction fuel with
  | zero => intro l _; rfl
  | succ n ih =>
    intro l h
    cases l with
    | nil => rfl
    | cons c cs =>
      show (match punctMatch (c :: cs) with
        | some tail => ' ' :: pySubPunctFuel n tail
        | none => c :: pySubPunctFuel n cs) = c :: cs
      rw [punctMatch_none_of_alnum h]
      exact congrArg (c :: ·) (ih cs fun x hx => h x (List.mem_cons_of_mem _ hx))

theorem pySubPunct_noop {l : List Char}
    (h : ∀ c ∈ l, isAlnumLower c = true) : pySubPunct l = l :=
  pySubPunctFuel_noop l.length l h

theorem collapseWsAux_noop : ∀ (l : List Char) (b : Bool),
    (∀ c ∈ l, isAlnumLower c = true) → collapseWsAux b l = l := by
  intro l
  induction l with
  | nil => intro b _; rfl
  | cons c cs ih =>
    intro b h
    unfold collapseWsAux
    rw [if_neg]
    · exact congrArg (c :: ·) (ih false fun x hx => h x (List.mem_cons_of_mem _ hx))
    · simp [isPyWs_of_alnum (h c (List.mem_cons_self c cs))]

theorem collapseWs_noop {l : List Char}
    (h : ∀ c ∈ l, isAlnumLower c = true) : collapseWs l = l :=
  collapseWsAux_noop l false h

theorem transliterateToLatin_noop {l : List Char}
    (h : ∀ c ∈ l, isAlnumLower c = true) : transliterateToLatin l = l := by
  unfold transliterateToLatin
  induction l with
  | nil => rfl
  | cons c cs ih =>
    rw [List.flatMap_cons, ruToLatin_noop (h c (List.mem_cons_self c cs)),
      ih fun x hx => h x (List.mem_cons_of_mem _ hx)]
    rfl

/-! ## Characterization of `normalize_brand_token` outputs -/

theorem pre_keys_not_alnum :
    ∀ p ∈ PRE_TRANSLIT_OVERRIDES, p.1.data.all isAlnumLower = false := by decide

theorem pre_values_good : ∀ p ∈ PRE_TRANSLIT_OVERRIDES,
    p.2 ≠ "" ∧ ∀ c ∈ p.2.data, isAlnumLower c = true := by decide

theorem post_values_good : ∀ p ∈ POST_TRANSLIT_OVERRIDES,
    p.2 ≠ "" ∧ ∀ c ∈ p.2.data, isAlnumLower c = true := by decide

theorem pre_values_fixed :
    ∀ p ∈ PRE_TRANSLIT_OVERRIDES, normalizeBrandToken p.2 = p.2 := by decide

theorem post_values_fixed :
    ∀ p ∈ POST_TRANSLIT_OVERRIDES, normalizeBrandToken p.2 = p.2 := by decide

/-- Every output of `normalize_brand_token` is empty, a value of the
pre-transliteration override table, or `POST.get(tk, tk)` for a nonempty
all-`[0-9a-z]` token `tk`. -/
theorem normalizeBrandToken_cases (s : String) :
    normalizeBrandToken s = "" ∨
    (∃ p ∈ PRE_TRANSLIT_OVERRIDES, normalizeBrandToken s = p.2) ∨
    (∃ tk : List Char, tk ≠ [] ∧ (∀ c ∈ tk, isAlnumLower c = true) ∧
      normalizeBrandToken s =
        (pyGet POST_TRANSLIT_OVERRIDES (String.mk tk)).getD (String.mk tk)) := by
  unfold normalizeBrandToken
  split
  · exact Or.inl rfl
  · split
    · exact Or.inl rfl
    · split
      · next v heq =>
        obtain ⟨p, hp, hv⟩ := pyGet_mem heq
        exact Or.inr (Or.inl ⟨p, hp, hv.symm⟩)
      · split
        · exact Or.inl rfl
        · split
          · next v heq =>
            obtain ⟨p, hp, hv⟩ := pyGet_mem heq
            exact Or.inr (Or.inl ⟨p, hp, hv.symm⟩)
          · split
            · exact Or.inl rfl
            · next htk =>
              refine Or.inr (Or.inr ⟨_, htk, fun c hc => ?_, rfl⟩)
              exact List.of_mem_filter hc

/-- Every nonempty output of `normalize_brand_token` consists only of
characters in `[0-9a-z]`. -/
theorem normalizeBrandToken_alnum (s : String) :
    normalizeBrandToken s = "" ∨
    (normalizeBrandToken s ≠ "" ∧
      ∀ c ∈ (normalizeBrandToken s).data, isAlnumLower c = true) := by
  rcases normalizeBrandToken_cases s with h | ⟨p, hp, h⟩ | ⟨tk, hne, hall, h⟩
  · exact Or.inl h
  · exact Or.inr (h ▸ pre_values_good p hp)
  · right
    rw [h]
    cases hpost : pyGet POST_TRANSLIT_OVERRIDES (String.mk tk) with
    | some v =>
      obtain ⟨p, hp, hv⟩ := pyGet_mem hpost
      simpa only [Option.getD_some, hv] using post_values_good p hp
    | none =>
      simp only [Option.getD_none]
      refine ⟨fun hcon => hne ?_, hall⟩
      simpa using congrArg String.data hcon

/-- On a string that is already all-`[0-9a-z]`, `normalize_brand_token`
reduces to the final post-transliteration override lookup. -/
theorem normalizeBrandToken_fixpoint {r : String} (hne : r ≠ "")
    (h : ∀ c ∈ r.data, isAlnumLower c = true) :
    normalizeBrandToken r = (pyGet POST_TRANSLIT_OVERRIDES r).getD r := by
  have hdata : r.data ≠ [] := by
    intro hd
    exact hne (by cases r; simp_all)
  have h1 : nbtStage1 r = r.data := by
    unfold nbtStage1
    rw [pyStrip_noop fun c hc => isPyWs_of_alnum (h c hc),
      map_noop fun c hc => toLowerPy_noop (h c hc),
      pyStrip_noop fun c hc => isStripSet1_of_alnum (h c hc)]
  have h2 : nbtClean r.data = r.data := by
    unfold nbtClean
    rw [map_noop fun c hc => ruEquiv_noop (h c hc), pySubPunct_noop h,
      collapseWs_noop h, pyStrip_noop fun c hc => isStripSet2_of_alnum (h c hc)]
  have h3 : nbtToken r.data = r.data := by
    unfold nbtToken
    rw [transliterateToLatin_noop h, List.filter_eq_self.mpr h]
  have hpre : pyGet PRE_TRANSLIT_OVERRIDES (String.mk r.data) = none := by
    rw [pyGet_eq_none]
    intro p hp hcon
    have hall : p.1.data.all isAlnumLower = true :=
      List.all_eq_true.mpr (by simpa [hcon] using h)
    rw [pre_keys_not_alnum p hp] at hall
    cases hall
  unfold normalizeBrandToken
  rw [if_neg hne]
  simp only [h1, h2, h3, hpre, if_neg hdata]

/-! ## Claim theorems: normalization -/

/-- C5: for every key of the pre-transliteration override table,
`normalize_token` of that key returns exactly the table's value. -/
theorem claim_C5_override_precedence :
    ∀ p ∈ PRE_TRANSLIT_OVERRIDES, normalizeBrandToken p.1 = p.2 := by decide

/-- Witness for C5 at the concrete key `тойота`. -/
theorem claim_C5_witness :
    ("тойота", "toyota") ∈ PRE_TRANSLIT_OVERRIDES ∧
    normalizeBrandToken "тойота" = "toyota" :=
  ⟨by decide, claim_C5_override_precedence ("тойота", "toyota") (by decide)⟩

/-- C8: `normalize_token` is a projection — applying it twice gives the same
result as applying it once, for every input string. -/
theorem claim_C8_idempotent (x : String) :
    normalizeBrandToken (normalizeBrandToken x) = normalizeBrandToken x := by
  rcases normalizeBrandToken_cases x with h | ⟨p, hp, h⟩ | ⟨tk, hne, hall, h⟩
  · rw [h]; rfl
  · rw [h]; exact pre_values_fixed p hp
  · rw [h]
    cases hpost : pyGet POST_TRANSLIT_OVERRIDES (String.mk tk) with
    | some v =>
      obtain ⟨p, hp, hv⟩ := pyGet_mem hpost
      simp only [Option.getD_some]
      rw [← hv]
      exact post_values_fixed p hp
    | none =>
      simp only [Option.getD_none]
      have hne' : String.mk tk ≠ "" := by
        intro hcon
        exact hne (by simpa using congrArg String.data hcon)
      rw [normalizeBrandToken_fixpoint hne' (by simpa using hall), hpost]
      rfl

/-! ## The fuzzy-lookup loop computes the earliest maximal candidate -/

/-- Prepending an entry that cannot beat the running best preserves the
selection characterization. -/
theorem fuzzySpec_extend {token candidate brand : String}
    {rest : List (String × String)} {best : Option String} {bestScore : ℚ}
    (hskip : fuzzyAccepted token candidate →
      dlScore token candidate ≤ bestScore)
    (h : (fuzzyLoop token rest best bestScore = best ∧
        ∀ p ∈ rest, fuzzyAccepted token p.1 → dlScore token p.1 ≤ bestScore) ∨
      (∃ l1 p l2, rest = l1 ++ p :: l2 ∧ fuzzyAccepted token p.1 ∧
        fuzzyLoop token rest best bestScore = some p.2 ∧
        bestScore < dlScore token p.1 ∧
        (∀ q ∈ l1, fuzzyAccepted token q.1 →
          dlScore token q.1 < dlScore token p.1) ∧
        (∀ q ∈ l2, fuzzyAccepted token q.1 →
          dlScore token q.1 ≤ dlScore token p.1))) :
    (fuzzyLoop token rest best bestScore = best ∧
      ∀ p ∈ (candidate, brand) :: rest,
        fuzzyAccepted token p.1 → dlScore token p.1 ≤ bestScore) ∨
    (∃ l1 p l2, (candidate, brand) :: rest = l1 ++ p :: l2 ∧
      fuzzyAccepted token p.1 ∧
      fuzzyLoop token rest best bestScore = some p.2 ∧
      bestScore < dlScore token p.1 ∧
      (∀ q ∈ l1, fuzzyAccepted token q.1 →
        dlScore token q.1 < dlScore token p.1) ∧
      (∀ q ∈ l2, fuzzyAccepted token q.1 →
        dlScore token q.1 ≤ dlScore token p.1)) := by
  rcases h with ⟨hres, hall⟩ | ⟨l1, p, l2, heq, hacc, hres, hlt, hl1, hl2⟩
  · refine Or.inl ⟨hres, fun q hq hqa => ?_⟩
    rcases List.mem_cons.mp hq with rfl | hq'
    · exact hskip hqa
    · exact hall q hq' hqa
  · refine Or.inr ⟨(candidate, brand) :: l1, p, l2, by rw [heq]; rfl, hacc,
      hres, hlt, fun q hq hqa => ?_, hl2⟩
    rcases List.mem_cons.mp hq with rfl | hq'
    · exact lt_of_le_of_lt (hskip hqa) hlt
    · exact hl1 q hq' hqa

/-- Characterization of the `_fuzzy_brand_lookup` loop: starting from
`(best, bestScore)`, it either keeps `best` (and every accepted candidate
scores at most `bestScore`) or returns the earliest candidate whose
similarity strictly exceeds `bestScore` and is maximal. -/
theorem fuzzyLoop_spec (token : String) :
    ∀ (l : List (String × String)) (best : Option String) (bestScore : ℚ),
      (∀ p ∈ l, p.1 ≠ token) →
      (fuzzyLoop token l best bestScore = best ∧
        ∀ p ∈ l, fuzzyAccepted token p.1 → dlScore token p.1 ≤ bestScore) ∨
      (∃ l1 p l2, l = l1 ++ p :: l2 ∧ fuzzyAccepted token p.1 ∧
        fuzzyLoop token l best bestScore = some p.2 ∧
        bestScore < dlScore token p.1 ∧
        (∀ q ∈ l1, fuzzyAccepted token q.1 →
          dlScore token q.1 < dlScore token p.1) ∧
        (∀ q ∈ l2, fuzzyAccepted token q.1 →
          dlScore token q.1 ≤ dlScore token p.1)) := by
  intro l
  induction l with
  | nil => intro best bestScore _; exact Or.inl ⟨rfl, by simp⟩
  | cons a rest ih =>
    intro best bestScore hex
    obtain ⟨candidate, brand⟩ := a
    have hneq : candidate ≠ token :=
      hex (candidate, brand) (List.mem_cons_self _ _)
    have hex' : ∀ p ∈ rest, p.1 ≠ token :=
      fun p hp => hex p (List.mem_cons_of_mem _ hp)
    show (fuzzyLoop token ((candidate, brand) :: rest) best bestScore = best ∧ _) ∨ _
    simp only [fuzzyLoop]
    rw [if_neg hneq]
    by_cases h4 : candidate.length < 4
    · rw [if_pos h4]
      exact fuzzySpec_extend (fun hacc => absurd hacc.1 (by omega))
        (ih best bestScore hex')
    rw [if_neg h4]
    by_cases hfc : candidate.data.getD 0 'x' = token.data.getD 0 'x'
    case neg =>
      rw [if_pos hfc]
      exact fuzzySpec_extend (fun hacc => absurd hacc.2.1 hfc)
        (ih best bestScore hex')
    rw [if_neg (not_not_intro hfc)]
    by_cases hdiff : 2 < ((candidate.length : Int) - (token.length : Int)).natAbs
    · rw [if_pos hdiff]
      exact fuzzySpec_extend (fun hacc => absurd hacc.2.2.1 (by omega))
        (ih best bestScore hex')
    rw [if_neg hdiff]
    by_cases hd : 3 < damerauLevenshtein token.data candidate.data ∨
        max 1 (max candidate.length token.length / 3) <
          damerauLevenshtein token.data candidate.data
    · rw [if_pos hd]
      refine fuzzySpec_extend (fun hacc => ?_) (ih best bestScore hex')
      have h1 := hacc.2.2.2.1
      have h2 := hacc.2.2.2.2.1
      rcases hd with hd | hd <;> omega
    rw [if_neg hd]
    by_cases hup : (3 / 5 : ℚ) ≤ dlScore token candidate ∧
        bestScore < dlScore token candidate
    · rw [if_pos hup]
      have hacc : fuzzyAccepted token candidate := by
        push_neg at hd
        exact ⟨by omega, hfc, by omega, hd.1, hd.2, hup.1⟩
      rcases ih (some brand) (dlScore token candidate) hex' with
        ⟨hres, hall⟩ | ⟨l1, p, l2, heq, hacc', hres, hlt, hl1, hl2⟩
      · exact Or.inr ⟨[], (candidate, brand), rest, rfl, hacc, hres, hup.2,
          by simp, hall⟩
      · refine Or.inr ⟨(candidate, brand) :: l1, p, l2, by rw [heq]; rfl,
          hacc', hres, lt_trans hup.2 hlt, fun q hq hqa => ?_, hl2⟩
        rcases List.mem_cons.mp hq with rfl | hq'
        · exact hlt
        · exact hl1 q hq' hqa
    · rw [if_neg hup]
      refine fuzzySpec_extend (fun hacc => ?_) (ih best bestScore hex')
      have hsc := hacc.2.2.2.2.2
      by_contra hgt
      exact hup ⟨hsc, lt_of_not_le hgt⟩

/-! ## Claim theorems: fuzzy resolution (C3, C10) -/

/-- C3: during fuzzy resolution of a token of length at least 4 that has no
exact entry in the map, accepted candidates satisfy the claimed distance
and similarity bounds, and the result is the earliest accepted candidate of
maximal similarity (`none` when no candidate is accepted). -/
theorem claim_C3_fuzzy_resolution (token : String)
    (m : List (String × String)) (hlen : 4 ≤ token.length)
    (hex : ∀ p ∈ m, p.1 ≠ token) :
    fuzzyAcceptanceBound token ∧ fuzzySelectionSpec token m := by
  have hloop := fuzzyLoop_spec token m none 0 hex
  have hrun : fuzzyBrandLookup token m = fuzzyLoop token m none 0 := by
    unfold fuzzyBrandLookup
    rw [if_neg (by omega)]
  constructor
  · intro k hacc
    have h4 := hacc.1
    refine ⟨hacc.2.2.2.1, ?_, hacc.2.2.2.2.2⟩
    have h5 := hacc.2.2.2.2.1
    have hge : 1 ≤ max k.length token.length / 3 := by
      have : 4 ≤ max k.length token.length := le_max_of_le_left h4
      omega
    omega
  · constructor
    · intro hnone p hp hacc
      rcases hloop with ⟨_, hall⟩ | ⟨l1, q, l2, _, _, hres, _, _, _⟩
      · have hle := hall p hp hacc
        have hsc := hacc.2.2.2.2.2
        have : (3 / 5 : ℚ) ≤ 0 := le_trans hsc hle
        norm_num at this
      · rw [hrun, hres] at hnone
        cases hnone
    · intro b hsome
      rcases hloop with ⟨hres, _⟩ | ⟨l1, p, l2, heq, hacc, hres, _, hl1, hl2⟩
      · rw [hrun, hres] at hsome
        cases hsome
      · rw [hrun, hres] at hsome
        cases hsome
        exact ⟨l1, p, l2, heq, hacc, rfl, hl1, hl2⟩

/-- Witness for C3 at a concrete token and one-entry map. -/
theorem claim_C3_witness :
    4 ≤ "toyta".length ∧
    (∀ p ∈ [("toyota", "toyota")], Prod.fst p ≠ "toyta") ∧
    (fuzzyAcceptanceBound "toyta" ∧
      fuzzySelectionSpec "toyta" [("toyota", "toyota")]) :=
  ⟨by decide, by decide,
    claim_C3_fuzzy_resolution "toyta" [("toyota", "toyota")] (by decide)
      (by decide)⟩

/-- Every `some` result of the fuzzy loop is the running best or comes from
an entry whose key equals the token or has length at least 4. -/
theorem fuzzyLoop_some_source (token : String) :
    ∀ (l : List (String × String)) (best : Option String) (bestScore : ℚ)
      (b : String), fuzzyLoop token l best bestScore = some b →
      best = some b ∨ ∃ p ∈ l, p.2 = b ∧ (p.1 = token ∨ 4 ≤ p.1.length) := by
  intro l
  induction l with
  | nil => intro best bestScore b h; exact Or.inl h
  | cons a rest ih =>
    intro best bestScore b h
    obtain ⟨candidate, brand⟩ := a
    rw [show fuzzyLoop token ((candidate, brand) :: rest) best bestScore =
        (if candidate = token then some brand
         else if candidate.length < 4 then fuzzyLoop token rest best bestScore
         else if ¬ (candidate.data.getD 0 'x' = token.data.getD 0 'x') then
           fuzzyLoop token rest best bestScore
         else if 2 < ((candidate.length : Int) - (token.length : Int)).natAbs
           then fuzzyLoop token rest best bestScore
         else if 3 < damerauLevenshtein token.data candidate.data ∨
             max 1 (max candidate.length token.length / 3) <
               damerauLevenshtein token.data candidate.data then
           fuzzyLoop token rest best bestScore
         else if (3 / 5 : ℚ) ≤ dlScore token candidate ∧
             bestScore < dlScore token candidate then
           fuzzyLoop token rest (some brand) (dlScore token candidate)
         else fuzzyLoop token rest best bestScore) from rfl] at h
    by_cases heq : candidate = token
    · rw [if_pos heq] at h
      injection h with hb
      exact Or.inr ⟨(candidate, brand), List.mem_cons_self _ _, hb,
        Or.inl heq⟩
    rw [if_neg heq] at h
    by_cases h4 : candidate.length < 4
    · rw [if_pos h4] at h
      rcases ih best bestScore b h with hb | ⟨p, hp, hpb, hq⟩
      · exact Or.inl hb
      · exact Or.inr ⟨p, List.mem_cons_of_mem _ hp, hpb, hq⟩
    rw [if_neg h4] at h
    by_cases hfc : ¬ (candidate.data.getD 0 'x' = token.data.getD 0 'x')
    · rw [if_pos hfc] at h
      rcases ih best bestScore b h with hb | ⟨p, hp, hpb, hq⟩
      · exact Or.inl hb
      · exact Or.inr ⟨p, List.mem_cons_of_mem _ hp, hpb, hq⟩
    rw [if_neg hfc] at h
    by_cases hdiff : 2 < ((candidate.length : Int) - (token.length : Int)).natAbs
    · rw [if_pos hdiff] at h
      rcases ih best bestScore b h with hb | ⟨p, hp, hpb, hq⟩
      · exact Or.inl hb
      · exact Or.inr ⟨p, List.mem_cons_of_mem _ hp, hpb, hq⟩
    rw [if_neg hdiff] at h
    by_cases hd : 3 < damerauLevenshtein token.data candidate.data ∨
        max 1 (max candidate.length token.length / 3) <
          damerauLevenshtein token.data candidate.data
    · rw [if_pos hd] at h
      rcases ih best bestScore b h with hb | ⟨p, hp, hpb, hq⟩
      · exact Or.inl hb
      · exact Or.inr ⟨p, List.mem_cons_of_mem _ hp, hpb, hq⟩
    rw [if_neg hd] at h
    by_cases hup : (3 / 5 : ℚ) ≤ dlScore token candidate ∧
        bestScore < dlScore token candidate
    · rw [if_pos hup] at h
      rcases ih (some brand) (dlScore token candidate) b h with
        hb | ⟨p, hp, hpb, hq⟩
      · injection hb with hb2
        refine Or.inr ⟨(candidate, brand), List.mem_cons_self _ _, hb2,
          Or.inr ?_⟩
        show 4 ≤ candidate.length
        omega
      · exact Or.inr ⟨p, List.mem_cons_of_mem _ hp, hpb, hq⟩
    · rw [if_neg hup] at h
      rcases ih best bestScore b h with hb | ⟨p, hp, hpb, hq⟩
      · exact Or.inl hb
      · exact Or.inr ⟨p, List.mem_cons_of_mem _ hp, hpb, hq⟩

/-- C10: the fuzzy lookup returns `none` for tokens shorter than 4
characters, and any brand it returns comes from a map entry whose key is
the token itself or has length at least 4 — so a length-3 catalog token is
reachable only by exact lookup, never by fuzzy matching. -/
theorem claim_C10_fuzzy_guards (t : String) (m : List (String × String)) :
    (t.length < 4 → fuzzyBrandLookup t m = none) ∧
    (∀ b, fuzzyBrandLookup t m = some b →
      ∃ p ∈ m, p.2 = b ∧ (p.1 = t ∨ 4 ≤ p.1.length)) := by
  constructor
  · intro h
    unfold fuzzyBrandLookup
    rw [if_pos h]
  · intro b h
    unfold fuzzyBrandLookup at h
    by_cases hl : t.length < 4
    · rw [if_pos hl] at h
      cases h
    · rw [if_neg hl] at h
      rcases fuzzyLoop_some_source t m none 0 b h with hcon | hex
      · cases hcon
      · exact hex

/-- Witness for C10: the length-3 token `kia` is never fuzzy-matched. -/
theorem claim_C10_witness :
    "kia".length < 4 ∧ fuzzyBrandLookup "kia" [("kia", "kia")] = none :=
  ⟨by decide, (claim_C10_fuzzy_guards "kia" [("kia", "kia")]).1 (by decide)⟩

/-! ## Claim theorems: trust selection (C4) -/

theorem selectTrustedStep_eq (acc : List String) (p : String × TokenStats) :
    selectTrustedStep acc p = if trustedQual p then acc ++ [p.1] else acc := by
  unfold selectTrustedStep
  by_cases h0 : p.1 = ""
  · rw [if_pos h0, if_neg]
    intro hq
    have hg : isGenericLikeToken p.1 = true := by rw [h0]; rfl
    rw [hq.1] at hg
    cases hg
  rw [if_neg h0]
  by_cases hg : isGenericLikeToken p.1 = true
  · rw [if_pos hg, if_neg]
    intro hq
    rw [hq.1] at hg
    cases hg
  rw [if_neg hg]
  have hgf : isGenericLikeToken p.1 = false := by
    cases hb : isGenericLikeToken p.1
    · rfl
    · exact absurd hb hg
  by_cases hs : 0 < p.2.solo_occurrences
  · rw [if_pos hs, if_pos ⟨hgf, Or.inl hs⟩]
  rw [if_neg hs]
  by_cases hu : p.2.occurrences ≤ 2 ∧
      (0 < p.2.uppercase_occurrences ∨ 0 < p.2.latin_occurrences)
  · rw [if_pos hu, if_pos ⟨hgf, Or.inr (Or.inl hu)⟩]
  rw [if_neg hu]
  by_cases hsc : (2.5 : ℚ) ≤ p.2.score
  · rw [if_pos hsc, if_pos ⟨hgf, Or.inr (Or.inr hsc)⟩]
  · rw [if_neg hsc, if_neg]
    intro hq
    rcases hq.2 with h | h | h
    exacts [hs h, hu h, hsc h]

theorem selectTrusted_go (stats : List (String × TokenStats)) :
    ∀ (acc : List String) (t : String),
      t ∈ stats.foldl selectTrustedStep acc ↔
        t ∈ acc ∨ ∃ st, (t, st) ∈ stats ∧ trustedQual (t, st) := by
  induction stats with
  | nil => intro acc t; simp
  | cons p rest ih =>
    intro acc t
    obtain ⟨k, st0⟩ := p
    rw [List.foldl_cons, ih, selectTrustedStep_eq]
    by_cases hq : trustedQual (k, st0)
    · rw [if_pos hq]
      constructor
      · rintro (hmem | ⟨st, hst, hqst⟩)
        · rcases List.mem_append.mp hmem with h | h
          · exact Or.inl h
          · have ht : t = k := by simpa using h
            subst ht
            exact Or.inr ⟨st0, List.mem_cons_self _ _, hq⟩
        · exact Or.inr ⟨st, List.mem_cons_of_mem _ hst, hqst⟩
      · rintro (hmem | ⟨st, hst, hqst⟩)
        · exact Or.inl (List.mem_append.mpr (Or.inl hmem))
        · rcases List.mem_cons.mp hst with heq | hst'
          · have ht : t = k := congrArg Prod.fst heq
            subst ht
            exact Or.inl (List.mem_append.mpr (Or.inr (by simp)))
          · exact Or.inr ⟨st, hst', hqst⟩
    · rw [if_neg hq]
      constructor
      · rintro (hmem | ⟨st, hst, hqst⟩)
        · exact Or.inl hmem
        · exact Or.inr ⟨st, List.mem_cons_of_mem _ hst, hqst⟩
      · rintro (hmem | ⟨st, hst, hqst⟩)
        · exact Or.inl hmem
        · rcases List.mem_cons.mp hst with heq | hst'
          · exact absurd (heq ▸ hqst) hq
          · exact Or.inr ⟨st, hst', hqst⟩

/-- C4: a token in the collected statistics is selected as trusted iff it
is not generic-like and has a solo occurrence, or is rare (at most 2
occurrences) with an uppercase or Latin occurrence, or its weighted score
`2*solo + uppercase + hyphen + 0.5*latin` reaches `2.5`. -/
theorem claim_C4_trust_selection (stats : List (String × TokenStats))
    (t : String) :
    t ∈ selectTrusted stats ↔
      ∃ st, (t, st) ∈ stats ∧ isGenericLikeToken t = false ∧
        (0 < st.solo_occurrences ∨
          (st.occurrences ≤ 2 ∧
            (0 < st.uppercase_occurrences ∨ 0 < st.latin_occurrences)) ∨
          (2.5 : ℚ) ≤ st.score) := by
  unfold selectTrusted
  rw [selectTrusted_go]
  simp only [List.not_mem_nil, false_or]
  unfold trustedQual
  rfl

/-! ## Claim theorems: catalog invariants (C2) -/

theorem find?_append_some {α} {p : α → Bool} {l1 l2 : List α} {a : α}
    (h : l1.find? p = some a) : (l1 ++ l2).find? p = some a := by
  induction l1 with
  | nil => cases h
  | cons x rest ih =>
    rw [List.cons_append]
    cases hx : p x with
    | true =>
      rw [List.find?_cons_of_pos _ hx] at h
      rw [List.find?_cons_of_pos _ hx]
      exact h
    | false =>
      rw [List.find?_cons_of_neg _ (by simp [hx])] at h
      rw [List.find?_cons_of_neg _ (by simp [hx])]
      exact ih h

theorem pyGet_append_some {m m2 : List (String × String)} {k v : String}
    (h : pyGet m k = some v) : pyGet (m ++ m2) k = some v := by
  unfold pyGet at h ⊢
  cases hf : m.find? (fun p => p.1 == k) with
  | none => rw [hf] at h; cases h
  | some p =>
    rw [hf] at h
    rw [find?_append_some hf]
    exact h

theorem mapSetdefault_get_some {m : List (String × String)} {k v t b : String}
    (h : pyGet m t = some b) : pyGet (mapSetdefault m k v) t = some b := by
  unfold mapSetdefault
  cases hg : pyGet m k with
  | some _ => exact h
  | none => exact pyGet_append_some h

theorem mapSetdefault_keys_nodup {m : List (String × String)} {k v : String}
    (h : (m.map Prod.fst).Nodup) :
    ((mapSetdefault m k v).map Prod.fst).Nodup := by
  unfold mapSetdefault
  cases hg : pyGet m k with
  | some _ => exact h
  | none =>
    rw [List.map_append, List.nodup_append]
    refine ⟨h, List.nodup_singleton _, fun a ha hmem => ?_⟩
    have ha' : a = k := by simpa using hmem
    subst ha'
    obtain ⟨p, hp, hp1⟩ := List.mem_map.mp ha
    rw [pyGet_eq_none] at hg
    exact hg p hp hp1

/-- `IdOk brands`: every stored brand's `id` equals its dictionary key. -/
def IdOk (m : List (String × Brand)) : Prop := ∀ p ∈ m, p.2.id = p.1

/-- `TokOk brands`: every stored brand's key is among its `tokens`. -/
def TokOk (m : List (String × Brand)) : Prop :=
  ∀ p ∈ m, p.2.tokens.contains p.1 = true

theorem listInsert_contains (l : List String) (x : String) :
    (listInsert l x).contains x = true := by
  unfold listInsert
  split
  · assumption
  · simp

theorem brandsEnsure_IdOk {m : List (String × Brand)} {id : String}
    (h : IdOk m) : IdOk (brandsEnsure m id) := by
  unfold brandsEnsure
  split
  · exact h
  · intro p hp
    rcases List.mem_append.mp hp with h1 | h1
    · exact h p h1
    · have : p = (id, { id := id }) := by simpa using h1
      rw [this]

theorem brandsModify_IdOk {m : List (String × Brand)} {id : String}
    {f : Brand → Brand} (hf : ∀ b, (f b).id = b.id) (h : IdOk m) :
    IdOk (brandsModify m id f) := by
  intro p hp
  obtain ⟨q, hq, hpe⟩ := List.mem_map.mp hp
  by_cases hqid : q.1 = id
  · rw [if_pos hqid] at hpe
    rw [← hpe]
    exact (hf q.2).trans (h q hq)
  · rw [if_neg hqid] at hpe
    rw [← hpe]
    exact h q hq

theorem brandsEnsure_mem_ne {m : List (String × Brand)} {id : String}
    {p : String × Brand} (hp : p ∈ brandsEnsure m id) (hne : p.1 ≠ id) :
    p ∈ m := by
  unfold brandsEnsure at hp
  split at hp
  · exact hp
  · rcases List.mem_append.mp hp with h1 | h1
    · exact h1
    · have : p = (id, { id := id }) := by simpa using h1
      rw [this] at hne
      exact absurd rfl hne

theorem brandsModify_mem_ne {m : List (String × Brand)} {id : String}
    {f : Brand → Brand} {p : String × Brand} (hp : p ∈ brandsModify m id f)
    (hne : p.1 ≠ id) : p ∈ m := by
  obtain ⟨q, hq, hpe⟩ := List.mem_map.mp hp
  by_cases hqid : q.1 = id
  · rw [if_pos hqid] at hpe
    rw [← hpe] at hne
    exact absurd hqid hne
  · rw [if_neg hqid] at hpe
    rw [← hpe]
    exact hq

theorem brandsModify_mem_eq {m : List (String × Brand)} {id : String}
    {f : Brand → Brand} {p : String × Brand} (hp : p ∈ brandsModify m id f)
    (heq : p.1 = id) : ∃ b0, (p.1, b0) ∈ m ∧ p.2 = f b0 := by
  obtain ⟨q, hq, hpe⟩ := List.mem_map.mp hp
  by_cases hqid : q.1 = id
  · rw [if_pos hqid] at hpe
    refine ⟨q.2, ?_, ?_⟩
    · have h1 : p.1 = q.1 := by rw [← hpe]
      rw [h1]
      exact hq
    · rw [← hpe]
  · rw [if_neg hqid] at hpe
    rw [← hpe] at heq
    exact absurd heq hqid

theorem registerCandidate_eq_none {cand : LabelCandidate}
    {trusted : List String}
    {st : List (String × Brand) × List (String × String)}
    (hf : cand.tokens.find? (fun t => trusted.contains t) = none) :
    registerCandidate cand trusted st = st := by
  unfold registerCandidate
  rw [hf]

theorem registerCandidate_eq_some {cand : LabelCandidate}
    {trusted : List String}
    {st : List (String × Brand) × List (String × String)} {canonical : String}
    (hf : cand.tokens.find? (fun t => trusted.contains t) = some canonical) :
    registerCandidate cand trusted st =
      (brandsModify
        ((cand.tokens.foldl (registerTokensStep canonical trusted)
          (brandsModify (brandsEnsure st.1 canonical) canonical
            (fun b => { b with labels := listInsert b.labels cand.text }),
           st.2))).1 canonical
        (fun b => { b with tokens := listInsert b.tokens canonical }),
       mapSetdefault
        ((cand.tokens.foldl (registerTokensStep canonical trusted)
          (brandsModify (brandsEnsure st.1 canonical) canonical
            (fun b => { b with labels := listInsert b.labels cand.text }),
           st.2))).2 canonical canonical) := by
  unfold registerCandidate
  rw [hf]

theorem regTokensFold_tm_some (canonical : String) (trusted : List String)
    (t b : String) : ∀ (tokens : List String)
    (acc : List (String × Brand) × List (String × String)),
    pyGet acc.2 t = some b →
    pyGet ((tokens.foldl (registerTokensStep canonical trusted) acc)).2 t =
      some b := by
  intro tokens
  induction tokens with
  | nil => intro acc h; exact h
  | cons tok rest ih =>
    intro acc h
    rw [List.foldl_cons]
    refine ih _ ?_
    unfold registerTokensStep
    split
    · exact h
    · exact mapSetdefault_get_some h

theorem regTokensFold_tm_nodup (canonical : String) (trusted : List String) :
    ∀ (tokens : List String)
    (acc : List (String × Brand) × List (String × String)),
    (acc.2.map Prod.fst).Nodup →
    (((tokens.foldl (registerTokensStep canonical trusted) acc)).2.map
      Prod.fst).Nodup := by
  intro tokens
  induction tokens with
  | nil => intro acc h; exact h
  | cons tok rest ih =>
    intro acc h
    rw [List.foldl_cons]
    refine ih _ ?_
    unfold registerTokensStep
    split
    · exact h
    · exact mapSetdefault_keys_nodup h

theorem regTokensFold_IdOk (canonical : String) (trusted : List String) :
    ∀ (tokens : List String)
    (acc : List (String × Brand) × List (String × String)),
    IdOk acc.1 →
    IdOk ((tokens.foldl (registerTokensStep canonical trusted) acc)).1 := by
  intro tokens
  induction tokens with
  | nil => intro acc h; exact h
  | cons tok rest ih =>
    intro acc h
    rw [List.foldl_cons]
    refine ih _ ?_
    unfold registerTokensStep
    split
    · exact h
    · show IdOk (brandsModify acc.1 canonical
        (fun b => { b with tokens := listInsert b.tokens tok }))
      exact brandsModify_IdOk (fun b => rfl) h

theorem regTokensFold_mem_ne (canonical : String) (trusted : List String) :
    ∀ (tokens : List String)
    (acc : List (String × Brand) × List (String × String))
    (p : String × Brand),
    p ∈ ((tokens.foldl (registerTokensStep canonical trusted) acc)).1 →
    p.1 ≠ canonical → p ∈ acc.1 := by
  intro tokens
  induction tokens with
  | nil => intro acc p h _; exact h
  | cons tok rest ih =>
    intro acc p h hne
    rw [List.foldl_cons] at h
    have h2 := ih _ p h hne
    unfold registerTokensStep at h2
    split at h2
    · exact h2
    · have h3 : p ∈ brandsModify acc.1 canonical
          (fun b => { b with tokens := listInsert b.tokens tok }) := h2
      exact brandsModify_mem_ne h3 hne

theorem registerCandidate_tm_some {cand : LabelCandidate}
    {trusted : List String}
    {st : List (String × Brand) × List (String × String)} {t b : String}
    (h : pyGet st.2 t = some b) :
    pyGet (registerCandidate cand trusted st).2 t = some b := by
  unfold registerCandidate
  cases hf : cand.tokens.find? (fun x => trusted.contains x) with
  | none => exact h
  | some canonical =>
    exact mapSetdefault_get_some
      (regTokensFold_tm_some canonical trusted t b cand.tokens _ h)

theorem registerCandidate_tm_nodup {cand : LabelCandidate}
    {trusted : List String}
    {st : List (String × Brand) × List (String × String)}
    (h : (st.2.map Prod.fst).Nodup) :
    ((registerCandidate cand trusted st).2.map Prod.fst).Nodup := by
  unfold registerCandidate
  cases hf : cand.tokens.find? (fun x => trusted.contains x) with
  | none => exact h
  | some canonical =>
    exact mapSetdefault_keys_nodup
      (regTokensFold_tm_nodup canonical trusted cand.tokens _ h)

theorem registerCandidate_brands_ok (cand : LabelCandidate)
    (trusted : List String)
    (st : List (String × Brand) × List (String × String))
    (hid : IdOk st.1) (htok : TokOk st.1) :
    IdOk (registerCandidate cand trusted st).1 ∧
    TokOk (registerCandidate cand trusted st).1 := by
  cases hf : cand.tokens.find? (fun t => trusted.contains t) with
  | none =>
    rw [registerCandidate_eq_none hf]
    exact ⟨hid, htok⟩
  | some canonical =>
    rw [registerCandidate_eq_some hf]
    have hid1 : IdOk (brandsModify (brandsEnsure st.1 canonical) canonical
        (fun b => { b with labels := listInsert b.labels cand.text })) :=
      brandsModify_IdOk (fun b => rfl) (brandsEnsure_IdOk hid)
    have hid2 : IdOk ((cand.tokens.foldl (registerTokensStep canonical trusted)
        (brandsModify (brandsEnsure st.1 canonical) canonical
          (fun b => { b with labels := listInsert b.labels cand.text }),
         st.2))).1 :=
      regTokensFold_IdOk canonical trusted cand.tokens _ hid1
    constructor
    · show IdOk (brandsModify
        ((cand.tokens.foldl (registerTokensStep canonical trusted)
          (brandsModify (brandsEnsure st.1 canonical) canonical
            (fun b => { b with labels := listInsert b.labels cand.text }),
           st.2))).1 canonical
        (fun b => { b with tokens := listInsert b.tokens canonical }))
      exact brandsModify_IdOk (fun b => rfl) hid2
    · intro p hp
      have hp2 : p ∈ brandsModify
          ((cand.tokens.foldl (registerTokensStep canonical trusted)
            (brandsModify (brandsEnsure st.1 canonical) canonical
              (fun b => { b with labels := listInsert b.labels cand.text }),
             st.2))).1 canonical
          (fun b => { b with tokens := listInsert b.tokens canonical }) := hp
      by_cases hpc : p.1 = canonical
      · obtain ⟨b0, _, hb0⟩ := brandsModify_mem_eq hp2 hpc
        rw [hb0]
        show (listInsert b0.tokens canonical).contains p.1 = true
        rw [hpc]
        exact listInsert_contains b0.tokens canonical
      · have h1 := brandsModify_mem_ne hp2 hpc
        have h2 := regTokensFold_mem_ne canonical trusted cand.tokens _ p h1 hpc
        have h3 : p ∈ brandsModify (brandsEnsure st.1 canonical) canonical
            (fun b => { b with labels := listInsert b.labels cand.text }) := h2
        exact htok p (brandsEnsure_mem_ne (brandsModify_mem_ne h3 hpc) hpc)

theorem buildFold_tm_some (trusted : List String) (t b : String) :
    ∀ (cs : List LabelCandidate)
    (st : List (String × Brand) × List (String × String)),
    pyGet st.2 t = some b →
    pyGet ((cs.foldl (fun st cand => registerCandidate cand trusted st)
      st)).2 t = some b := by
  intro cs
  induction cs with
  | nil => intro st h; exact h
  | cons c rest ih =>
    intro st h
    rw [List.foldl_cons]
    exact ih _ (registerCandidate_tm_some h)

theorem buildFold_invariants (trusted : List String) :
    ∀ (cs : List LabelCandidate)
    (st : List (String × Brand) × List (String × String)),
    (st.2.map Prod.fst).Nodup → IdOk st.1 → TokOk st.1 →
    (((cs.foldl (fun st cand => registerCandidate cand trusted st)
        st)).2.map Prod.fst).Nodup ∧
    IdOk ((cs.foldl (fun st cand => registerCandidate cand trusted st)
      st)).1 ∧
    TokOk ((cs.foldl (fun st cand => registerCandidate cand trusted st)
      st)).1 := by
  intro cs
  induction cs with
  | nil => intro st h1 h2 h3; exact ⟨h1, h2, h3⟩
  | cons c rest ih =>
    intro st h1 h2 h3
    rw [List.foldl_cons]
    have hbr := registerCandidate_brands_ok c trusted st h2 h3
    exact ih _ (registerCandidate_tm_nodup h1) hbr.1 hbr.2

/-- C2: the Token→Brand map built by `build_brand_catalog` has pairwise
distinct token keys; a token's brand is fixed by the first candidate that
registers it and later candidates never overwrite it; and every brand in
the catalog stores its own key as `id` and contains that id among its
`tokens`. -/
theorem claim_C2_catalog_invariants (lines : List String) :
    (((buildBrandCatalog lines).2.map Prod.fst).Nodup ∧
      ∀ p ∈ (buildBrandCatalog lines).1,
        p.2.id = p.1 ∧ p.2.tokens.contains p.1 = true) ∧
    (∀ cs1 cs2 : List LabelCandidate, ∀ t b : String,
      collectCandidatesList lines = cs1 ++ cs2 →
      pyGet ((cs1.foldl (fun st cand => registerCandidate cand
        (selectTrusted (collectStats (collectCandidatesList lines))) st)
        ([], []))).2 t = some b →
      pyGet (buildBrandCatalog lines).2 t = some b) := by
  constructor
  · have h := buildFold_invariants
      (selectTrusted (collectStats (collectCandidatesList lines)))
      (collectCandidatesList lines) ([], [])
      (by simp) (by intro p hp; cases hp) (by intro p hp; cases hp)
    exact ⟨h.1, fun p hp => ⟨h.2.1 p hp, h.2.2 p hp⟩⟩
  · intro cs1 cs2 t b hsplit h
    show pyGet ((collectCandidatesList lines).foldl
      (fun st cand => registerCandidate cand
        (selectTrusted (collectStats (collectCandidatesList lines))) st)
      ([], [])).2 t = some b
    set T := selectTrusted (collectStats (collectCandidatesList lines))
      with hT
    rw [hsplit, List.foldl_append]
    exact buildFold_tm_some T t b cs2 _ h

set_option maxRecDepth 100000 in
set_option maxHeartbeats 4000000 in
/-- Witness for C2 on the single line `BOSCH`, splitting the candidate list
after its only candidate. -/
theorem claim_C2_witness :
    (collectCandidatesList ["BOSCH"] =
      [{ text := "BOSCH", tokens := ["bosch"], is_upper := true,
         has_latin := true, token_count := 1, hyphenated := false }] ++
        []) ∧
    pyGet (([({ text := "BOSCH", tokens := ["bosch"], is_upper := true,
                has_latin := true, token_count := 1,
                hyphenated := false } : LabelCandidate)].foldl
        (fun st cand => registerCandidate cand
          (selectTrusted (collectStats (collectCandidatesList ["BOSCH"])))
          st) ([], []))).2 "bosch" = some "bosch" ∧
    pyGet (buildBrandCatalog ["BOSCH"]).2 "bosch" = some "bosch" := by
  have hA : collectCandidatesList ["BOSCH"] =
      [{ text := "BOSCH", tokens := ["bosch"], is_upper := true,
         has_latin := true, token_count := 1, hyphenated := false }] ++
        [] := by decide
  have hB : pyGet (([({ text := "BOSCH", tokens := ["bosch"],
                        is_upper := true, has_latin := true,
                        token_count := 1,
                        hyphenated := false } : LabelCandidate)].foldl
        (fun st cand => registerCandidate cand
          (selectTrusted (collectStats (collectCandidatesList ["BOSCH"])))
          st) ([], []))).2 "bosch" = some "bosch" := by decide
  exact ⟨hA, hB, (claim_C2_catalog_invariants ["BOSCH"]).2
    [{ text := "BOSCH", tokens := ["bosch"], is_upper := true,
       has_latin := true, token_count := 1, hyphenated := false }] []
    "bosch" "bosch" hA hB⟩

/-! ## Claim theorems: normalization totality and key alphabet (C9) -/

/-- The property claimed of every key and brand id: nonempty lowercase
ASCII alphanumeric. -/
def goodKey (k : String) : Prop :=
  k ≠ "" ∧ ∀ c ∈ k.data, isAlnumLower c = true

theorem normTokenGuard_some {n t : String} (h : normTokenGuard n = some t) :
    t = n ∧ n ≠ "" := by
  unfold normTokenGuard at h
  split at h
  · cases h
  · split at h
    · cases h
    · split at h
      · cases h
      · next hne _ _ =>
        cases h
        exact ⟨rfl, hne⟩

theorem tokensFromLabel_good {seg : String} :
    ∀ t ∈ tokensFromLabel seg, goodKey t := by
  intro t ht
  obtain ⟨raw, _, hf⟩ := List.mem_filterMap.mp ht
  unfold labelTokenStep at hf
  split at hf
  · cases hf
  · obtain ⟨ht2, hne⟩ := normTokenGuard_some hf
    subst ht2
    rcases normalizeBrandToken_alnum raw with hem | ⟨hne2, hall⟩
    · exact absurd hem hne
    · exact ⟨hne2, hall⟩

theorem segmentCandidate_tokens {seg : String} {cand : LabelCandidate}
    (h : segmentCandidate seg = some cand) :
    cand.tokens = tokensFromLabel seg := by
  unfold segmentCandidate at h
  split at h
  · cases h
  · cases h
    rfl

theorem collect_tokens_good {lines : List String} {cand : LabelCandidate}
    (hc : cand ∈ collectCandidatesList lines) :
    ∀ t ∈ cand.tokens, goodKey t := by
  unfold collectCandidatesList at hc
  obtain ⟨line, _, hc2⟩ := List.mem_flatMap.mp hc
  obtain ⟨seg, _, hsc⟩ := List.mem_filterMap.mp hc2
  rw [segmentCandidate_tokens hsc]
  exact tokensFromLabel_good

theorem mapSetdefault_keys_sub {m : List (String × String)} {k v x : String}
    (h : x ∈ (mapSetdefault m k v).map Prod.fst) :
    x ∈ m.map Prod.fst ∨ x = k := by
  unfold mapSetdefault at h
  cases hg : pyGet m k with
  | some w => rw [hg] at h; exact Or.inl h
  | none =>
    rw [hg, List.map_append] at h
    rcases List.mem_append.mp h with h1 | h1
    · exact Or.inl h1
    · exact Or.inr (by simpa using h1)

theorem regTokensFold_keys_sub (canonical : String) (trusted : List String) :
    ∀ (tokens : List String)
    (acc : List (String × Brand) × List (String × String)) (x : String),
    x ∈ ((tokens.foldl (registerTokensStep canonical trusted) acc)).2.map
      Prod.fst →
    x ∈ acc.2.map Prod.fst ∨ x ∈ tokens := by
  intro tokens
  induction tokens with
  | nil => intro acc x h; exact Or.inl h
  | cons tok rest ih =>
    intro acc x h
    rw [List.foldl_cons] at h
    rcases ih _ x h with h1 | h1
    · revert h1
      unfold registerTokensStep
      split
      · exact fun h1 => Or.inl h1
      · intro h1
        have h2 : x ∈ (mapSetdefault acc.2 tok canonical).map Prod.fst := h1
        rcases mapSetdefault_keys_sub h2 with h3 | h3
        · exact Or.inl h3
        · exact Or.inr (h3 ▸ List.mem_cons_self _ _)
    · exact Or.inr (List.mem_cons_of_mem _ h1)

theorem brandsModify_keys (m : List (String × Brand)) (id : String)
    (f : Brand → Brand) :
    (brandsModify m id f).map Prod.fst = m.map Prod.fst := by
  unfold brandsModify
  induction m with
  | nil => rfl
  | cons p rest ih =>
    simp only [List.map_cons, List.map_map] at ih ⊢
    rw [ih]
    by_cases hp : p.1 = id
    · rw [if_pos hp]
    · rw [if_neg hp]

theorem brandsEnsure_keys_sub {m : List (String × Brand)} {id x : String}
    (h : x ∈ (brandsEnsure m id).map Prod.fst) :
    x ∈ m.map Prod.fst ∨ x = id := by
  unfold brandsEnsure at h
  split at h
  · exact Or.inl h
  · rw [List.map_append] at h
    rcases List.mem_append.mp h with h1 | h1
    · exact Or.inl h1
    · exact Or.inr (by simpa using h1)

theorem regTokensFold_bkeys_sub (canonical : String) (trusted : List String) :
    ∀ (tokens : List String)
    (acc : List (String × Brand) × List (String × String)) (x : String),
    x ∈ ((tokens.foldl (registerTokensStep canonical trusted) acc)).1.map
      Prod.fst →
    x ∈ acc.1.map Prod.fst := by
  intro tokens
  induction tokens with
  | nil => intro acc x h; exact h
  | cons tok rest ih =>
    intro acc x h
    rw [List.foldl_cons] at h
    have h1 := ih _ x h
    revert h1
    unfold registerTokensStep
    split
    · exact id
    · intro h1
      have h2 : x ∈ (brandsModify acc.1 canonical
          (fun b => { b with tokens := listInsert b.tokens tok })).map
            Prod.fst := h1
      rw [brandsModify_keys] at h2
      exact h2

theorem registerCandidate_keys2_sub {cand : LabelCandidate}
    {trusted : List String}
    {st : List (String × Brand) × List (String × String)} {x : String}
    (h : x ∈ (registerCandidate cand trusted st).2.map Prod.fst) :
    x ∈ st.2.map Prod.fst ∨ x ∈ cand.tokens := by
  cases hf : cand.tokens.find? (fun t => trusted.contains t) with
  | none =>
    rw [registerCandidate_eq_none hf] at h
    exact Or.inl h
  | some canonical =>
    rw [registerCandidate_eq_some hf] at h
    have hcan : canonical ∈ cand.tokens := List.mem_of_find?_eq_some hf
    rcases mapSetdefault_keys_sub h with h1 | h1
    · rcases regTokensFold_keys_sub canonical trusted cand.tokens _ x h1 with
        h2 | h2
      · exact Or.inl h2
      · exact Or.inr h2
    · exact Or.inr (h1 ▸ hcan)

theorem registerCandidate_keys1_sub {cand : LabelCandidate}
    {trusted : List String}
    {st : List (String × Brand) × List (String × String)} {x : String}
    (h : x ∈ (registerCandidate cand trusted st).1.map Prod.fst) :
    x ∈ st.1.map Prod.fst ∨ x ∈ cand.tokens := by
  cases hf : cand.tokens.find? (fun t => trusted.contains t) with
  | none =>
    rw [registerCandidate_eq_none hf] at h
    exact Or.inl h
  | some canonical =>
    rw [registerCandidate_eq_some hf] at h
    have hcan : canonical ∈ cand.tokens := List.mem_of_find?_eq_some hf
    have h1 : x ∈ ((cand.tokens.foldl (registerTokensStep canonical trusted)
        (brandsModify (brandsEnsure st.1 canonical) canonical
          (fun b => { b with labels := listInsert b.labels cand.text }),
         st.2))).1.map Prod.fst := by
      have h2 : x ∈ (brandsModify
          ((cand.tokens.foldl (registerTokensStep canonical trusted)
            (brandsModify (brandsEnsure st.1 canonical) canonical
              (fun b => { b with labels := listInsert b.labels cand.text }),
             st.2))).1 canonical
          (fun b => { b with tokens := listInsert b.tokens canonical })).map
            Prod.fst := h
      rw [brandsModify_keys] at h2
      exact h2
    have h3 := regTokensFold_bkeys_sub canonical trusted cand.tokens _ x h1
    have h4 : x ∈ (brandsModify (brandsEnsure st.1 canonical) canonical
        (fun b => { b with labels := listInsert b.labels cand.text })).map
          Prod.fst := h3
    rw [brandsModify_keys] at h4
    rcases brandsEnsure_keys_sub h4 with h5 | h5
    · exact Or.inl h5
    · exact Or.inr (h5 ▸ hcan)

theorem buildFold_keys2_sub (trusted : List String) :
    ∀ (cs : List LabelCandidate)
    (st : List (String × Brand) × List (String × String)) (x : String),
    x ∈ ((cs.foldl (fun st cand => registerCandidate cand trusted st)
      st)).2.map Prod.fst →
    x ∈ st.2.map Prod.fst ∨ ∃ cand ∈ cs, x ∈ cand.tokens := by
  intro cs
  induction cs with
  | nil => intro st x h; exact Or.inl h
  | cons c rest ih =>
    intro st x h
    rw [List.foldl_cons] at h
    rcases ih _ x h with h1 | ⟨cand, hc, hx⟩
    · rcases registerCandidate_keys2_sub h1 with h2 | h2
      · exact Or.inl h2
      · exact Or.inr ⟨c, List.mem_cons_self _ _, h2⟩
    · exact Or.inr ⟨cand, List.mem_cons_of_mem _ hc, hx⟩

theorem buildFold_keys1_sub (trusted : List String) :
    ∀ (cs : List LabelCandidate)
    (st : List (String × Brand) × List (String × String)) (x : String),
    x ∈ ((cs.foldl (fun st cand => registerCandidate cand trusted st)
      st)).1.map Prod.fst →
    x ∈ st.1.map Prod.fst ∨ ∃ cand ∈ cs, x ∈ cand.tokens := by
  intro cs
  induction cs with
  | nil => intro st x h; exact Or.inl h
  | cons c rest ih =>
    intro st x h
    rw [List.foldl_cons] at h
    rcases ih _ x h with h1 | ⟨cand, hc, hx⟩
    · rcases registerCandidate_keys1_sub h1 with h2 | h2
      · exact Or.inl h2
      · exact Or.inr ⟨c, List.mem_cons_self _ _, h2⟩
    · exact Or.inr ⟨cand, List.mem_cons_of_mem _ hc, hx⟩

/-- C9: `normalize_brand_token` is total — for every input (including
`None`) its result is the empty string or a nonempty string over
`[0-9a-z]` — and consequently every key of the Token→Brand map and every
canonical brand id produced by `build_brand_catalog` is nonempty lowercase
ASCII alphanumeric. -/
theorem claim_C9_normalize_alphabet :
    (∀ raw : Option String, normalizeBrandTokenOpt raw = "" ∨
      goodKey (normalizeBrandTokenOpt raw)) ∧
    (∀ (lines : List String) (k : String),
      k ∈ (buildBrandCatalog lines).2.map Prod.fst → goodKey k) ∧
    (∀ (lines : List String) (k : String),
      k ∈ (buildBrandCatalog lines).1.map Prod.fst → goodKey k) := by
  refine ⟨?_, ?_, ?_⟩
  · intro raw
    cases raw with
    | none => exact Or.inl rfl
    | some s =>
      rcases normalizeBrandToken_alnum s with h | ⟨h1, h2⟩
      · exact Or.inl h
      · exact Or.inr ⟨h1, h2⟩
  · intro lines k h
    rcases buildFold_keys2_sub _ (collectCandidatesList lines) ([], []) k h
      with h1 | ⟨cand, hc, hx⟩
    · cases h1
    · exact collect_tokens_good hc k hx
  · intro lines k h
    rcases buildFold_keys1_sub _ (collectCandidatesList lines) ([], []) k h
      with h1 | ⟨cand, hc, hx⟩
    · cases h1
    · exact collect_tokens_good hc k hx

set_option maxRecDepth 100000 in
set_option maxHeartbeats 4000000 in
/-- Witness for C9 at a concrete catalog key. -/
theorem claim_C9_witness :
    "bosch" ∈ (buildBrandCatalog ["BOSCH"]).2.map Prod.fst ∧
    goodKey "bosch" :=
  ⟨by decide, claim_C9_normalize_alphabet.2.1 ["BOSCH"] "bosch" (by decide)⟩

/-! ## Claim theorems: query classification (C1, C6, C7) -/

theorem charToNat_ofNat {n : Nat} (h : n < 55296) :
    (Char.ofNat n).toNat = n := by
  unfold Char.ofNat
  rw [dif_pos (Or.inl h)]
  rfl

theorem toLowerPy_colon {c : Char} (h : toLowerPy c = ':') : c = ':' := by
  unfold toLowerPy at h
  split_ifs at h with h1 h2 h3
  · exfalso
    simp only [Bool.and_eq_true, decide_eq_true_eq] at h1
    have h58 := congrArg Char.toNat h
    rw [charToNat_ofNat (by omega)] at h58
    have hc : (':' : Char).toNat = 58 := rfl
    omega
  · exfalso
    simp only [Bool.and_eq_true, decide_eq_true_eq] at h2
    have h58 := congrArg Char.toNat h
    rw [charToNat_ofNat (by omega)] at h58
    have hc : (':' : Char).toNat = 58 := rfl
    omega
  · exact absurd h (by decide)
  · exact h

theorem startsWithLower_mem : ∀ (ps l : List Char),
    startsWithLower ps l = true → ∀ p ∈ ps, ∃ c ∈ l, p = toLowerPy c := by
  intro ps
  induction ps with
  | nil => intro l _ p hp; cases hp
  | cons p0 ps ih =>
    intro l h p hp
    cases l with
    | nil => simp [startsWithLower] at h
    | cons c cs =>
      simp only [startsWithLower, Bool.and_eq_true, decide_eq_true_eq] at h
      rcases List.mem_cons.mp hp with rfl | hp2
      · exact ⟨c, List.mem_cons_self c cs, h.1⟩
      · obtain ⟨x, hx, hpx⟩ := ih cs h.2 p hp2
        exact ⟨x, List.mem_cons_of_mem _ hx, hpx⟩

theorem urlSearchAux_colon : ∀ l : List Char, urlSearchAux l = true →
    ∃ c ∈ l, c = ':' := by
  intro l
  induction l with
  | nil => intro h; cases h
  | cons c cs ih =>
    intro h
    simp only [urlSearchAux, Bool.or_eq_true] at h
    rcases h with (h | h) | h
    · obtain ⟨x, hx, hpx⟩ := startsWithLower_mem _ _ h ':' (by decide)
      exact ⟨x, hx, toLowerPy_colon hpx.symm⟩
    · obtain ⟨x, hx, hpx⟩ := startsWithLower_mem _ _ h ':' (by decide)
      exact ⟨x, hx, toLowerPy_colon hpx.symm⟩
    · obtain ⟨x, hx, hc⟩ := ih h
      exact ⟨x, List.mem_cons_of_mem _ hx, hc⟩

theorem urlPatternSearch_false_of_article {s : String}
    (h : ∀ c ∈ s.data, isArticleChar c = true) :
    urlPatternSearch s = false := by
  cases hb : urlPatternSearch s with
  | false => rfl
  | true =>
    exfalso
    obtain ⟨c, hc, rfl⟩ := urlSearchAux_colon s.data hb
    have := h _ hc
    exact absurd this (by decide)

/-- C6: a stripped query that passes the probable-article test and whose
characters all come from the article alphabet is classified as `article`
with `normalized_code` the uppercased alphanumeric-only rendering — the
scheme test cannot fire because the article alphabet has no colon. -/
theorem claim_C6_article_classification (m : List (String × String))
    (q : String)
    (hprob : isProbableArticleQuery (String.mk (pyStrip isPyWs q.data)) = true)
    (hchars : ∀ c ∈ (String.mk (pyStrip isPyWs q.data)).data,
      isArticleChar c = true) :
    classifyQuery m q = some
      { kind := QueryKind.article,
        query := String.mk (pyStrip isPyWs q.data),
        normalized_code :=
          some (normalizeCode (String.mk (pyStrip isPyWs q.data))) } := by
  have hne : String.mk (pyStrip isPyWs q.data) ≠ "" := by
    intro h
    rw [h] at hprob
    exact absurd hprob (by decide)
  have hnil : pyStrip isPyWs q.data ≠ [] := by
    intro h
    apply hne
    show String.mk (pyStrip isPyWs q.data) = String.mk []
    rw [h]
  have hurl : urlPatternSearch (String.mk (pyStrip isPyWs q.data)) = false :=
    urlPatternSearch_false_of_article hchars
  have hmatch : articleCharMatch (String.mk (pyStrip isPyWs q.data)) = true := by
    unfold articleCharMatch
    rw [Bool.and_eq_true]
    constructor
    · cases hl : pyStrip isPyWs q.data with
      | nil => exact absurd hl hnil
      | cons a as => rfl
    · exact List.all_eq_true.mpr hchars
  unfold classifyQuery classifyStripped
  rw [if_neg hne, if_neg (by simp [hurl]),
    if_pos (by rw [hprob, hmatch]; rfl)]

/-- Witness for C6 at the spec scenario input. -/
theorem claim_C6_witness :
    classifyQuery [] "04152-YZZA1" = some
      { kind := QueryKind.article, query := "04152-YZZA1",
        normalized_code := some "04152YZZA1" } := by
  rw [claim_C6_article_classification [] "04152-YZZA1" (by decide) (by decide)]
  rfl

/-- C7 (amended): when the stripped query matches the scheme pattern AND
`urlparse` succeeds (returns `some parts` instead of raising), the query is
classified as `url` with `url_tokens` the non-alphanumeric-stripped final
path segment followed by the stripped query-parameter values, empty
strings discarded.  Unamended, the claim is refuted by
`claim_C7_counterexample`. -/
theorem claim_C7_url_classification (m : List (String × String))
    (q : String) (parts : ParseResultPy)
    (hurl : urlPatternSearch (String.mk (pyStrip isPyWs q.data)) = true)
    (hparse : pyUrlparse (pyStrip isPyWs q.data) = some parts) :
    classifyQuery m q = some
      { kind := QueryKind.url,
        query := String.mk (pyStrip isPyWs q.data),
        url_tokens := some (((pathLastToken parts.path ++
          (parseQs parts.query).flatMap (fun p => p.2.map stripNonAlnum)).filter
            (fun t => !(t = []))).map String.mk) } := by
  have hne : String.mk (pyStrip isPyWs q.data) ≠ "" := by
    intro h
    rw [h] at hurl
    exact absurd hurl (by decide)
  have hex : extractUrlTokens (String.mk (pyStrip isPyWs q.data)) =
      some (((pathLastToken parts.path ++
        (parseQs parts.query).flatMap (fun p => p.2.map stripNonAlnum)).filter
          (fun t => !(t = []))).map String.mk) := by
    unfold extractUrlTokens
    rw [if_neg (by simp [hne, hurl])]
    rw [show (String.mk (pyStrip isPyWs q.data)).data =
      pyStrip isPyWs q.data from rfl, hparse]
  unfold classifyQuery classifyStripped
  rw [if_neg hne, if_pos hurl, hex]

/-- Counterexample to C7 as stated: this query contains the scheme prefix,
yet classification raises (models CPython `urlsplit` raising
`ValueError("Invalid IPv6 URL")` on the unbalanced bracket) instead of
returning kind `url`. -/
theorem claim_C7_counterexample :
    classifyQuery [] "https://[" = none := by rfl

/-- Witness for C7 at the spec scenario URL. -/
theorem claim_C7_witness :
    classifyQuery [] "https://shop.example.com/parts/0044-TY-998?code=AB12" =
      some { kind := QueryKind.url,
             query := "https://shop.example.com/parts/0044-TY-998?code=AB12",
             url_tokens := some ["0044TY998", "AB12"] } := by
  rw [claim_C7_url_classification []
    "https://shop.example.com/parts/0044-TY-998?code=AB12"
    { scheme := "https".data, netloc := "shop.example.com".data,
      path := "/parts/0044-TY-998".data, params := [],
      query := "code=AB12".data, fragment := [] }
    (by decide) (by decide)]
  rfl

/-- C1: the claim says `classify` never raises; it does.  On this input the
scheme test fires, `urlparse` raises `ValueError("Invalid IPv6 URL")` from
the unbalanced bracket in the authority, and `classify_query` propagates
the exception (modelled by `none`) instead of returning a classification. -/
theorem claim_C1_url_exception :
    classifyQuery [] "http://[" = none := by rfl

end SearchSystem
